import Mathlib

/-!
# The in-memory stream of `VulkanStream_unittest.cpp`, and two pages of the Qt skin

A shallow embedding of `class VulkanStreamForTesting`
(`android/android-emugl/host/libs/libOpenglRender/vulkan/VulkanStream_unittest.cpp`),
the byte channel every marshaling test writes into and reads from; of the codec layer
above it, which is not among the sources and is modelled from the specification; and of
the event forwarding of `microphone-page.cpp` and `tool-window.cpp`.  All definitions
come first, the theorems follow.

Modelling decisions:

* `std::vector<char> mBuffer` is a `List Byte`; `mBuffer.size()` is `List.length`.
  The capacity of the vector is not observable through `size()` and is not modelled,
  so a stream that was drained and cleared is the same state as a new one.
* `size_t` cursors and sizes are `Nat`, and the `ssize_t` results are `Int`.  Both
  methods `memcpy` `size` bytes from or to the caller's span, so on every call whose
  `size` is the size of an object of the calling process the sums in the source stay
  far below `2^63`, they do not wrap, and the conversion of `size` to `ssize_t` keeps
  its value; `read` and `write` below are the source on these calls.  For any other
  `size` the `size_t` sum `mReadCursor + size` at the head of `read` wraps; that
  expectation in machine arithmetic is `readExpectFails`.
* `EXPECT_LE` is a non-fatal gtest expectation: when it fails, the failure is
  recorded and the function body keeps running.  `read` therefore reports the
  outcome of the expectation in the field `expectFailed` and still performs the
  cursor update and returns `size`.
* `memcpy` out of the vector is defined only when the source range lies inside the
  vector; otherwise the program has no defined behaviour from there on (on a vector
  that never held a byte the source pointer is null), and the model returns `none` for
  the bytes.  What `read` yields besides `expectFailed` is the source only on reads
  that pass the expectation.
-/

namespace goldfish_vk

/-- One `char` of the backing storage, as its raw value. -/
abbrev Byte := Fin 256

/-- The data members of `class VulkanStreamForTesting`. -/
structure VulkanStreamForTesting where
  mReadCursor : Nat
  mWriteCursor : Nat
  mBuffer : List Byte
deriving DecidableEq, Repr

/-- A default-constructed stream: `mReadCursor = 0`, `mWriteCursor = 0`, empty vector. -/
def fresh : VulkanStreamForTesting :=
  { mReadCursor := 0, mWriteCursor := 0, mBuffer := [] }

/-- The private method `clear()`: `mBuffer.clear(); mReadCursor = 0; mWriteCursor = 0;`. -/
def clear (_s : VulkanStreamForTesting) : VulkanStreamForTesting :=
  { mReadCursor := 0, mWriteCursor := 0, mBuffer := [] }

/-- The call `std::vector<char>::resize(n)`: truncates, or pads with value-initialised
(zero) chars. -/
def resize (v : List Byte) (n : Nat) : List Byte :=
  if n ≤ v.length then v.take n else v ++ List.replicate (n - v.length) 0

/-- The call `memcpy(buffer, v.data() + pos, size)`: the `size` bytes of `v` starting
at `pos`, or `none` when that range is not inside `v`. -/
def memcpyFrom (v : List Byte) (pos size : Nat) : Option (List Byte) :=
  if pos + size ≤ v.length then some ((v.drop pos).take size) else none

/-- The call `memcpy(v.data() + pos, src, src.size())`: overwrites the bytes of `v`
from position `pos` on with `src`. -/
def memcpyInto (v : List Byte) (pos : Nat) (src : List Byte) : List Byte :=
  v.take pos ++ src ++ v.drop (pos + src.length)

/-- What a call of `read` yields: the returned `ssize_t`, whether the `EXPECT_LE`
at its head failed, the bytes copied to the caller, and the stream afterwards. -/
structure ReadResult where
  ret : Int
  expectFailed : Bool
  data : Option (List Byte)
  stream : VulkanStreamForTesting
deriving DecidableEq, Repr

/-- What a call of `write` yields: the returned `ssize_t` and the stream afterwards. -/
structure WriteResult where
  ret : Int
  stream : VulkanStreamForTesting
deriving DecidableEq, Repr

/-- The method `ssize_t read(void* buffer, size_t size)`, for a `size` that is the size
of the caller's buffer, so that `mReadCursor + size` does not wrap.  On a read that
fails its expectation the `memcpy` leaves the vector and the program has no defined
behaviour from there on; the fields other than `expectFailed` then follow the statements
of the body as they are written. -/
def read (s : VulkanStreamForTesting) (size : Nat) : ReadResult :=
  -- EXPECT_LE(mReadCursor + size, mBuffer.size());
  let expectFailed := !decide (s.mReadCursor + size ≤ s.mBuffer.length)
  -- memcpy(buffer, mBuffer.data() + mReadCursor, size);
  let data := memcpyFrom s.mBuffer s.mReadCursor size
  -- mReadCursor += size;
  let s1 : VulkanStreamForTesting := { s with mReadCursor := s.mReadCursor + size }
  -- if (mReadCursor == mWriteCursor) { clear(); }
  let s2 := if s1.mReadCursor = s1.mWriteCursor then clear s1 else s1
  -- return size;
  { ret := (size : Int), expectFailed := expectFailed, data := data, stream := s2 }

/-- The method `ssize_t write(const void* buffer, size_t size)`; the span
`buffer[0 .. size)` is the list `buffer`. -/
def write (s : VulkanStreamForTesting) (buffer : List Byte) : WriteResult :=
  let size := buffer.length
  -- if (mBuffer.size() < mWriteCursor + size) { mBuffer.resize(mWriteCursor + size); }
  let b1 := if s.mBuffer.length < s.mWriteCursor + size
            then resize s.mBuffer (s.mWriteCursor + size) else s.mBuffer
  -- memcpy(mBuffer.data() + mWriteCursor, buffer, size);
  let b2 := memcpyInto b1 s.mWriteCursor buffer
  -- mWriteCursor += size;
  let s1 : VulkanStreamForTesting :=
    { mReadCursor := s.mReadCursor, mWriteCursor := s.mWriteCursor + size, mBuffer := b2 }
  -- if (mReadCursor == mWriteCursor) { clear(); }
  let s2 := if s1.mReadCursor = s1.mWriteCursor then clear s1 else s1
  -- return size;
  { ret := (size : Int), stream := s2 }

/-- A call made on the stream. -/
inductive Op where
  | write (buffer : List Byte)
  | read (size : Nat)
deriving DecidableEq, Repr

/-- The stream after one call. -/
def step (s : VulkanStreamForTesting) : Op → VulkanStreamForTesting
  | Op.write buffer => (write s buffer).stream
  | Op.read size => (read s size).stream

/-- The stream after a sequence of calls, first call first. -/
def run (s : VulkanStreamForTesting) : List Op → VulkanStreamForTesting
  | [] => s
  | op :: ops => run (step s op) ops

/-- A state the class can be in: the result of some sequence of calls on a
default-constructed stream. -/
def Reachable (s : VulkanStreamForTesting) : Prop :=
  ∃ ops : List Op, run fresh ops = s

/-- Whether the call passes the expectation at the head of `read` (a `write` has none). -/
def opOk (s : VulkanStreamForTesting) : Op → Bool
  | Op.write _ => true
  | Op.read size => !(read s size).expectFailed

/-- Whether no `read` of the sequence underflows: every `EXPECT_LE` passes. -/
def allOk (s : VulkanStreamForTesting) : List Op → Bool
  | [] => true
  | op :: ops => opOk s op && allOk (step s op) ops

/-- The bytes delivered by the reads of a sequence of calls, in call order; `none` when
some read delivered bytes that are not defined. -/
def readBytes (s : VulkanStreamForTesting) : List Op → Option (List Byte)
  | [] => some []
  | Op.write buffer :: ops => readBytes (write s buffer).stream ops
  | Op.read size :: ops =>
    match (read s size).data, readBytes (read s size).stream ops with
    | some d, some rest => some (d ++ rest)
    | _, _ => none

/-- The bytes handed to the writes of a sequence of calls, in call order. -/
def written : List Op → List Byte
  | [] => []
  | Op.write buffer :: ops => buffer ++ written ops
  | Op.read _ :: ops => written ops

/-- The unread content `mBuffer[mReadCursor .. mWriteCursor)`. -/
def unread (s : VulkanStreamForTesting) : List Byte :=
  (s.mBuffer.drop s.mReadCursor).take (s.mWriteCursor - s.mReadCursor)

/-- The invariant of every reachable state: the vector ends at the write cursor, and
the cursors meet only in the cleared state. -/
def WInv (s : VulkanStreamForTesting) : Prop :=
  s.mBuffer.length = s.mWriteCursor ∧ (s.mReadCursor = s.mWriteCursor → s = fresh)

/-- The invariant of the states reached without an underflowing read. -/
def Inv (s : VulkanStreamForTesting) : Prop :=
  WInv s ∧ s.mReadCursor ≤ s.mWriteCursor

/-- A state reached without an underflowing read: the result of a sequence of calls
on a default-constructed stream in which every `EXPECT_LE` passes. -/
def ReachableOk (s : VulkanStreamForTesting) : Prop :=
  ∃ ops : List Op, allOk fresh ops = true ∧ run fresh ops = s

/-- The total number of bytes in a list of spans. -/
def totalLength (spans : List (List Byte)) : Nat :=
  (spans.map List.length).sum

/-- A request/response cycle: the spans are written one by one, then the counts are
read one by one. -/
def cycle (c : List (List Byte) × List Nat) : List Op :=
  c.1.map Op.write ++ c.2.map Op.read

/-- The calls of a sequence of cycles. -/
def cycles : List (List (List Byte) × List Nat) → List Op
  | [] => []
  | c :: cs => cycle c ++ cycles cs

/-! ## The codec layer

`VulkanStream.h`, the stream base class behind `putBe32`, `getBe32`, `putString` and
`getString`, and the generated `marshal_*`, `unmarshal_*` and `checkEqual_*` functions
are not among the sources.  They are modelled here from the specification, on top of
the `read` and `write` of `VulkanStreamForTesting` above.  A getter yields `none` when
the `read` under it delivered no defined bytes.
-/

/-- Modelled from the spec: the stream base class is missing.  The byte holding the
low eight bits of `n`. -/
def byteOf (n : Nat) : Byte :=
  ⟨n % 256, Nat.mod_lt _ (by decide)⟩

/-- Modelled from the spec: the stream base class is missing.  "Fixed-width integers:
encoded in a single explicit byte order (big-endian)": the `width` bytes of `v`, most
significant first; as for a C unsigned integer of that width, `v` counts modulo
`256 ^ width`. -/
def beBytes : Nat → Nat → List Byte
  | 0, _ => []
  | width + 1, v => beBytes width (v / 256) ++ [byteOf v]

/-- Modelled from the spec: the stream base class is missing.  The integer a
big-endian byte sequence stands for. -/
def beValue (d : List Byte) : Nat :=
  d.foldl (fun acc b => acc * 256 + b.val) 0

/-- Modelled from the spec: the stream base class is missing.  "Raw byte ranges:
`put_bytes`/`get_bytes` move a caller-specified span verbatim": one `write` of the
span. -/
def putBytes (s : VulkanStreamForTesting) (b : List Byte) : VulkanStreamForTesting :=
  (write s b).stream

/-- Modelled from the spec: the stream base class is missing.  "Raw byte ranges":
one `read` of `n` bytes; `none` when the read underflows. -/
def getBytes (s : VulkanStreamForTesting) (n : Nat) :
    Option (List Byte × VulkanStreamForTesting) :=
  match (read s n).data with
  | some d => some (d, (read s n).stream)
  | none => none

/-- Modelled from the spec: the stream base class is missing.  The `put` of a
fixed-width integer of `width` bytes. -/
def putBe (width : Nat) (s : VulkanStreamForTesting) (v : Nat) : VulkanStreamForTesting :=
  putBytes s (beBytes width v)

/-- Modelled from the spec: the stream base class is missing.  The `get` of a
fixed-width integer of `width` bytes. -/
def getBe (width : Nat) (s : VulkanStreamForTesting) :
    Option (Nat × VulkanStreamForTesting) :=
  match getBytes s width with
  | some (d, s1) => some (beValue d, s1)
  | none => none

/-- Modelled from the spec: `Stream::putBe32` is missing.  The spec's `put_u32`. -/
def putBe32 (s : VulkanStreamForTesting) (v : Nat) : VulkanStreamForTesting :=
  putBe 4 s v

/-- Modelled from the spec: `Stream::getBe32` is missing.  The spec's `get_u32`. -/
def getBe32 (s : VulkanStreamForTesting) : Option (Nat × VulkanStreamForTesting) :=
  getBe 4 s

/-- Modelled from the spec: `Stream::putString` is missing.  "`put_string` writes a
big-endian 32-bit length followed by the raw bytes (no terminator)". -/
def putString (s : VulkanStreamForTesting) (str : List Byte) : VulkanStreamForTesting :=
  putBytes (putBe32 s str.length) str

/-- Modelled from the spec: `Stream::getString` is missing.  "`get_string` reads the
length then exactly that many bytes". -/
def getString (s : VulkanStreamForTesting) :
    Option (List Byte × VulkanStreamForTesting) :=
  match getBe32 s with
  | some (len, s1) => getBytes s1 len
  | none => none

/-- Modelled from the spec: the generated code is missing.  The shape tag of a
marshaled field, "`Scalar`, `FixedArray(N)`, `OptionalPointer`, `CountedArray`,
`OpaqueBlob`", with nested structs as the sequence of the shapes of their fields.  The
size of a blob is the size the caller knows from a sibling field. -/
inductive Shape where
  | scalar (width : Nat)
  | fixedArray (n : Nat) (elem : Shape)
  | structNil
  | structCons (field : Shape) (rest : Shape)
  | optionalPointer (target : Shape)
  | countedArray (elem : Shape)
  | opaqueBlob (size : Nat)
deriving DecidableEq, Repr

/-- Modelled from the spec: the generated code is missing.  The values of a shape. -/
@[reducible] def Val : Shape → Type
  | Shape.scalar _ => Nat
  | Shape.fixedArray _ elem => List (Val elem)
  | Shape.structNil => Unit
  | Shape.structCons field rest => Val field × Val rest
  | Shape.optionalPointer target => Option (Val target)
  | Shape.countedArray elem => List (Val elem)
  | Shape.opaqueBlob _ => List Byte

/-- Equality of the values of a shape is decidable. -/
instance instDecidableEqVal : (sh : Shape) → DecidableEq (Val sh)
  | Shape.scalar _ => inferInstanceAs (DecidableEq Nat)
  | Shape.fixedArray _ elem =>
    let _ := instDecidableEqVal elem
    inferInstanceAs (DecidableEq (List (Val elem)))
  | Shape.structNil => inferInstanceAs (DecidableEq Unit)
  | Shape.structCons field rest =>
    let _ := instDecidableEqVal field
    let _ := instDecidableEqVal rest
    inferInstanceAs (DecidableEq (Val field × Val rest))
  | Shape.optionalPointer target =>
    let _ := instDecidableEqVal target
    inferInstanceAs (DecidableEq (Option (Val target)))
  | Shape.countedArray elem =>
    let _ := instDecidableEqVal elem
    inferInstanceAs (DecidableEq (List (Val elem)))
  | Shape.opaqueBlob _ => inferInstanceAs (DecidableEq (List Byte))

/-- Modelled from the spec: the generated code is missing.  A legally constructed
value: a scalar fits its width, a fixed array has its `N` elements, a counted array
has a count that fits 32 bits, a blob has the size its sibling field states. -/
def Legal : (sh : Shape) → Val sh → Prop
  | Shape.scalar width, v => v < 256 ^ width
  | Shape.fixedArray n elem, v => v.length = n ∧ ∀ x ∈ v, Legal elem x
  | Shape.structNil, _ => True
  | Shape.structCons field rest, v => Legal field v.1 ∧ Legal rest v.2
  | Shape.optionalPointer _, none => True
  | Shape.optionalPointer target, some x => Legal target x
  | Shape.countedArray elem, v => v.length < 2 ^ 32 ∧ ∀ x ∈ v, Legal elem x
  | Shape.opaqueBlob size, v => v.length = size

/-- Modelled from the spec: the generated code is missing.  The payloads of the
elements of a list, in index order. -/
def encodeList {α : Type} (f : α → List Byte) : List α → List Byte
  | [] => []
  | x :: xs => f x ++ encodeList f xs

/-- Modelled from the spec: the generated code is missing.  The wire format of section
6: integers big-endian; optional pointer "`u8 flag` (`0` = absent, nonzero = present) +
nested payload iff present"; counted array "`u32 count` + `count` element payloads";
blob "no length re-encoded on the wire"; fixed array "a flat concatenation of `N`
element payloads". -/
def encode : (sh : Shape) → Val sh → List Byte
  | Shape.scalar width, v => beBytes width v
  | Shape.fixedArray _ elem, v => encodeList (encode elem) v
  | Shape.structNil, _ => []
  | Shape.structCons field rest, v => encode field v.1 ++ encode rest v.2
  | Shape.optionalPointer _, none => [0]
  | Shape.optionalPointer target, some x => [1] ++ encode target x
  | Shape.countedArray elem, v => beBytes 4 v.length ++ encodeList (encode elem) v
  | Shape.opaqueBlob _, v => v

/-- Modelled from the spec: the generated code is missing.  Marshals the elements of a
list in index order, each with the element type's own marshal function. -/
def marshalList {α : Type} (f : VulkanStreamForTesting → α → VulkanStreamForTesting) :
    VulkanStreamForTesting → List α → VulkanStreamForTesting
  | s, [] => s
  | s, x :: xs => marshalList f (f s x) xs

/-- Modelled from the spec: the generated code is missing.  Unmarshals `n` elements in
index order; fails as soon as one element fails, and reads nothing when `n` is 0. -/
def unmarshalList {α : Type}
    (g : VulkanStreamForTesting → Option (α × VulkanStreamForTesting)) :
    Nat → VulkanStreamForTesting → Option (List α × VulkanStreamForTesting)
  | 0, s => some ([], s)
  | n + 1, s =>
    match g s with
    | none => none
    | some (x, s1) =>
      match unmarshalList g n s1 with
      | none => none
      | some (xs, s2) => some (x :: xs, s2)

/-- Modelled from the spec: the generated code is missing.  "Optional single pointer to
struct: encode a 1-byte presence flag; if present, immediately follow with the nested
struct's own marshal output; if absent, emit nothing further." -/
def marshalOptional {α : Type} (f : VulkanStreamForTesting → α → VulkanStreamForTesting)
    (s : VulkanStreamForTesting) : Option α → VulkanStreamForTesting
  | none => putBe 1 s 0
  | some x => f (putBe 1 s 1) x

/-- Modelled from the spec: the generated code is missing.  "Unmarshal allocates storage
for the nested struct only if the flag is set, otherwise leaves the destination field
pointing to nothing." -/
def unmarshalOptional {α : Type}
    (g : VulkanStreamForTesting → Option (α × VulkanStreamForTesting))
    (s : VulkanStreamForTesting) : Option (Option α × VulkanStreamForTesting) :=
  match getBe 1 s with
  | none => none
  | some (flag, s1) =>
    if flag = 0 then some (none, s1)
    else
      match g s1 with
      | none => none
      | some (x, s2) => some (some x, s2)

/-- Modelled from the spec: the generated code is missing.  "Counted array (pointer +
count): encode the count as a big-endian 32-bit integer, then the marshal output of each
element in order, using the element type's own marshal function." -/
def marshalCounted {α : Type} (f : VulkanStreamForTesting → α → VulkanStreamForTesting)
    (s : VulkanStreamForTesting) (xs : List α) : VulkanStreamForTesting :=
  marshalList f (putBe32 s xs.length) xs

/-- Modelled from the spec: the generated code is missing.  The mirror image of
`marshalCounted`: the count, then that many elements. -/
def unmarshalCounted {α : Type}
    (g : VulkanStreamForTesting → Option (α × VulkanStreamForTesting))
    (s : VulkanStreamForTesting) : Option (List α × VulkanStreamForTesting) :=
  match getBe32 s with
  | none => none
  | some (count, s1) => unmarshalList g count s1

/-- Modelled from the spec: the generated code is missing.  The `marshal` function of a
shape, written in the codec primitives and the pointer and array conventions. -/
def marshal : (sh : Shape) → VulkanStreamForTesting → Val sh → VulkanStreamForTesting
  | Shape.scalar width, s, v => putBe width s v
  | Shape.fixedArray _ elem, s, v => marshalList (marshal elem) s v
  | Shape.structNil, s, _ => s
  | Shape.structCons field rest, s, v => marshal rest (marshal field s v.1) v.2
  | Shape.optionalPointer target, s, v => marshalOptional (marshal target) s v
  | Shape.countedArray elem, s, v => marshalCounted (marshal elem) s v
  | Shape.opaqueBlob _, s, v => putBytes s v

/-- Modelled from the spec: the generated code is missing.  The `unmarshal` function of
a shape, the mirror image of `marshal`; a blob is read at the size the caller
provides. -/
def unmarshal : (sh : Shape) → VulkanStreamForTesting →
    Option (Val sh × VulkanStreamForTesting)
  | Shape.scalar width, s => getBe width s
  | Shape.fixedArray n elem, s => unmarshalList (unmarshal elem) n s
  | Shape.structNil, s => some ((), s)
  | Shape.structCons field rest, s =>
    match unmarshal field s with
    | none => none
    | some (a, s1) =>
      match unmarshal rest s1 with
      | none => none
      | some (b, s2) => some ((a, b), s2)
  | Shape.optionalPointer target, s => unmarshalOptional (unmarshal target) s
  | Shape.countedArray elem, s => unmarshalCounted (unmarshal elem) s
  | Shape.opaqueBlob size, s => getBytes s size

/-- Modelled from the spec: the generated code is missing.  What a message handed to the
mismatch callback reports. -/
inductive Mismatch where
  | scalar
  | presence
  | count
  | blob
deriving DecidableEq, Repr

/-- Modelled from the spec: the generated code is missing.  Compares two lists
pairwise, up to the end of the shorter one. -/
def checkPairwise {α : Type} (f : α → α → List Mismatch) :
    List α → List α → List Mismatch
  | a :: as, b :: bs => f a b ++ checkPairwise f as bs
  | _, _ => []

/-- Modelled from the spec: the generated code is missing.  The structural equality
checker, as the list of the callback invocations it makes: "walk both instances field by
field, recursing through nested structs, optional pointers (mismatch if one is present
and the other absent), counted arrays (mismatch if counts differ; otherwise compare
elements pairwise; stop comparing elements past the shorter length), and opaque blobs
(byte-for-byte comparison over the shared size)". -/
def checkEqual : (sh : Shape) → Val sh → Val sh → List Mismatch
  | Shape.scalar _, a, b => if a = b then [] else [Mismatch.scalar]
  | Shape.fixedArray _ elem, a, b => checkPairwise (checkEqual elem) a b
  | Shape.structNil, _, _ => []
  | Shape.structCons field rest, a, b =>
    checkEqual field a.1 b.1 ++ checkEqual rest a.2 b.2
  | Shape.optionalPointer _, none, none => []
  | Shape.optionalPointer target, some x, some y => checkEqual target x y
  | Shape.optionalPointer _, none, some _ => [Mismatch.presence]
  | Shape.optionalPointer _, some _, none => [Mismatch.presence]
  | Shape.countedArray elem, a, b =>
    (if a.length = b.length then [] else [Mismatch.count])
      ++ checkPairwise (checkEqual elem) a b
  | Shape.opaqueBlob _, a, b =>
    if a.take (min a.length b.length) = b.take (min a.length b.length) then []
    else [Mismatch.blob]

/-- A struct shape with one field of each kind: a 32-bit scalar, an optional pointer to
a fixed array of two bytes, a counted array of one-byte blobs. -/
abbrev sampleShape : Shape :=
  Shape.structCons (Shape.scalar 4)
    (Shape.structCons (Shape.optionalPointer (Shape.fixedArray 2 (Shape.scalar 1)))
      (Shape.structCons (Shape.countedArray (Shape.opaqueBlob 1)) Shape.structNil))

/-- A value of `sampleShape`. -/
def sampleValue : Val sampleShape :=
  ((6 : Nat), ((some [(1 : Nat), 2] : Option (List Nat)),
    (([[7], [8], [9]] : List (List Byte)), ())))

/-- Modelled from the spec: the generated code is missing.  The number of mismatching
fields the full walk of two lists finds, pairwise up to the end of the shorter one. -/
def countPairwise {α : Type} (f : α → α → Nat) : List α → List α → Nat
  | a :: as, b :: bs => f a b + countPairwise f as bs
  | _, _ => 0

/-- Modelled from the spec: the generated code is missing.  The number of mismatching
fields the full walk of two values finds: a scalar that differs, an optional pointer
present on one side only, a counted array whose counts differ, a blob whose bytes differ
over the shared size, and the mismatching fields of all nested values. -/
def mismatchingFields : (sh : Shape) → Val sh → Val sh → Nat
  | Shape.scalar _, a, b => if a = b then 0 else 1
  | Shape.fixedArray _ elem, a, b => countPairwise (mismatchingFields elem) a b
  | Shape.structNil, _, _ => 0
  | Shape.structCons field rest, a, b =>
    mismatchingFields field a.1 b.1 + mismatchingFields rest a.2 b.2
  | Shape.optionalPointer _, none, none => 0
  | Shape.optionalPointer target, some x, some y => mismatchingFields target x y
  | Shape.optionalPointer _, none, some _ => 1
  | Shape.optionalPointer _, some _, none => 1
  | Shape.countedArray elem, a, b =>
    (if a.length = b.length then 0 else 1) + countPairwise (mismatchingFields elem) a b
  | Shape.opaqueBlob _, a, b =>
    if a.take (min a.length b.length) = b.take (min a.length b.length) then 0 else 1

/-- The shape of a struct whose fields are scalars of the given widths. -/
def scalarStruct : List Nat → Shape
  | [] => Shape.structNil
  | width :: widths => Shape.structCons (Shape.scalar width) (scalarStruct widths)

/-- The value of a struct of scalars whose fields hold the given numbers, in order (0
where the list has run out). -/
def scalarStructValue : (widths : List Nat) → List Nat → Val (scalarStruct widths)
  | [], _ => ()
  | _ :: widths, vs => (vs.headD 0, scalarStructValue widths vs.tail)

/-- The number of positions at which two lists of numbers differ. -/
def differing : List Nat → List Nat → Nat
  | a :: as, b :: bs => (if a = b then 0 else 1) + differing as bs
  | _, _ => 0

/-- A second value of `sampleShape`: the pointer is absent and the counted array is
shorter. -/
def sampleOther : Val sampleShape :=
  ((6 : Nat), ((none : Option (List Nat)), (([[7], [8]] : List (List Byte)), ())))

end goldfish_vk

/-! ## The skin events of the Qt user interface

`android/skin/event.h`, `android/hw-events.h` and the emulator window are not among the
sources.  A skin event is modelled by the fields the two source files assign, the
constants of `android/hw-events.h` are parameters, and the emulator window is the list
of the events handed to its queue, in call order.
-/

/-- The values of `SkinEvent::type` the two source files assign. -/
inductive SkinEventType where
  | kEventKeyDown
  | kEventKeyUp
  | kEventGeneric
  | kEventLayoutNext
  | kEventLayoutPrev
deriving DecidableEq, Repr

/-- The member `u.generic_event` of a skin event. -/
structure SkinEventGenericData where
  type : Int
  code : Int
  value : Int
deriving DecidableEq, Repr

/-- The member `u.key` of a skin event. -/
structure SkinEventKeyData where
  keycode : Nat
  mod : Nat
deriving DecidableEq, Repr

/-- The union `u` of a skin event; `unset` is the value-initialised union of
`new SkinEvent()`. -/
inductive SkinEventData where
  | unset
  | generic_event (d : SkinEventGenericData)
  | key (d : SkinEventKeyData)
deriving DecidableEq, Repr

/-- A `SkinEvent`. -/
structure SkinEvent where
  type : SkinEventType
  u : SkinEventData
deriving DecidableEq, Repr

/-- The constants of `android/hw-events.h` the two source files use; the header is
missing, so their values are parameters. -/
structure HwEvents where
  EV_SYN : Int
  EV_KEY : Int
  EV_SW : Int
  SW_HEADPHONE_INSERT : Int
  SW_MICROPHONE_INSERT : Int
  KEY_VOLUMEUP : Nat
  KEY_VOLUMEDOWN : Nat
  KEY_POWER : Nat
  KEY_SOFT1 : Nat
  KEY_HOME : Nat
  KEY_BACK : Nat
  KEY_APPSWITCH : Nat

/-- An assignment of pairwise different values to the constants, for concrete
instances. -/
def sampleHwEvents : HwEvents :=
  { EV_SYN := 0, EV_KEY := 1, EV_SW := 5, SW_HEADPHONE_INSERT := 2,
    SW_MICROPHONE_INSERT := 4, KEY_VOLUMEUP := 115, KEY_VOLUMEDOWN := 114,
    KEY_POWER := 116, KEY_SOFT1 := 229, KEY_HOME := 102, KEY_BACK := 158,
    KEY_APPSWITCH := 580 }

/-- What `microphone-page.cpp` reads and changes of a `MicrophonePage`: the check boxes
`mic_inserted` and `mic_hasMic`, the enabled state of the subordinate controls, and
`mEmulatorWindow`, which is `none` for `nullptr` and otherwise the events handed to
`queueSkinEvent`, in call order. -/
structure MicrophonePage where
  mic_inserted : Bool
  mic_hasMic : Bool
  mic_hasMic_enabled : Bool
  mic_voiceAssistButton_enabled : Bool
  mic_hookButton_enabled : Bool
  mEmulatorWindow : Option (List SkinEvent)
deriving DecidableEq, Repr

namespace MicrophonePage

/-- The method `MicrophonePage::forwardGenericEventToEmulator(int type, int code,
int value)`. -/
def forwardGenericEventToEmulator (p : MicrophonePage) (type code value : Int) :
    MicrophonePage :=
  -- if (mEmulatorWindow) { ... mEmulatorWindow->queueSkinEvent(skin_event); }
  match p.mEmulatorWindow with
  | some queue =>
    { p with mEmulatorWindow := some (queue ++
        [{ type := SkinEventType.kEventGeneric,
           u := SkinEventData.generic_event { type := type, code := code, value := value } }]) }
  | none => p

/-- The slot `MicrophonePage::on_mic_hasMic_toggled(bool checked)`. -/
def on_mic_hasMic_toggled (K : HwEvents) (p : MicrophonePage) (checked : Bool) :
    MicrophonePage :=
  -- if (mUi->mic_inserted->isChecked()) {
  if p.mic_inserted then
    let p1 := forwardGenericEventToEmulator p K.EV_SW K.SW_MICROPHONE_INSERT
      (if checked then 1 else 0)
    forwardGenericEventToEmulator p1 K.EV_SYN 0 0
  else p

/-- The slot `MicrophonePage::on_mic_inserted_toggled(bool checked)`; `setButtonEnabled`
of `common.h` is taken to set the enabled state of the button. -/
def on_mic_inserted_toggled (K : HwEvents) (p : MicrophonePage) (checked : Bool) :
    MicrophonePage :=
  -- mUi->mic_hasMic->setEnabled(checked); setButtonEnabled(..., checked); twice
  let p0 : MicrophonePage :=
    { p with mic_hasMic_enabled := checked, mic_voiceAssistButton_enabled := checked,
             mic_hookButton_enabled := checked }
  -- if (checked) { phonesInserted = 1; micInserted = mic_hasMic->isChecked() ? 1 : 0; }
  -- else { phonesInserted = 0; micInserted = 0; }
  let phonesInserted : Int := if checked then 1 else 0
  let micInserted : Int := if checked then (if p0.mic_hasMic then 1 else 0) else 0
  let p1 := forwardGenericEventToEmulator p0 K.EV_SW K.SW_HEADPHONE_INSERT phonesInserted
  let p2 := forwardGenericEventToEmulator p1 K.EV_SW K.SW_MICROPHONE_INSERT micInserted
  forwardGenericEventToEmulator p2 K.EV_SYN 0 0

/-- The generic skin event `forwardGenericEventToEmulator` builds. -/
def genericEvent (type code value : Int) : SkinEvent :=
  { type := SkinEventType.kEventGeneric,
    u := SkinEventData.generic_event { type := type, code := code, value := value } }

/-- A page whose emulator window is set and has one event queued already. -/
def samplePage : MicrophonePage :=
  { mic_inserted := true, mic_hasMic := true, mic_hasMic_enabled := true,
    mic_voiceAssistButton_enabled := true, mic_hookButton_enabled := true,
    mEmulatorWindow := some [genericEvent 1 231 0] }

end MicrophonePage

/-! ## The tool window

`tool-window.cpp` is among the sources; the enumeration `QtUICommand`, the emulator
window, the tool bar widgets and the shortcut store are not.  The calls
`handleUICommand` makes on them are recorded in call order, what it asks of the emulator
window is a parameter, and so is the shortcut store.
-/

namespace ToolWindow

/-- The enumerators of `QtUICommand` that `ToolWindow::handleUICommand` names; `other`
stands for every enumerator it does not name. -/
inductive QtUICommand where
  | SHOW_PANE_LOCATION
  | SHOW_PANE_CELLULAR
  | SHOW_PANE_BATTERY
  | SHOW_PANE_PHONE
  | SHOW_PANE_VIRTSENSORS
  | SHOW_PANE_DPAD
  | SHOW_PANE_FINGER
  | SHOW_PANE_SETTINGS
  | SHOW_PANE_HELP
  | TAKE_SCREENSHOT
  | ENTER_ZOOM
  | ZOOM_IN
  | ZOOM_OUT
  | PAN_UP
  | PAN_DOWN
  | PAN_LEFT
  | PAN_RIGHT
  | VOLUME_UP
  | VOLUME_DOWN
  | POWER
  | MENU
  | HOME
  | BACK
  | OVERVIEW
  | ROTATE_RIGHT
  | ROTATE_LEFT
  | SHOW_MULTITOUCH
  | other (tag : Nat)
deriving DecidableEq, Repr

/-- The panes `handleUICommand` passes to `showOrRaiseExtendedWindow`. -/
inductive ExtendedWindowPane where
  | PANE_IDX_LOCATION
  | PANE_IDX_CELLULAR
  | PANE_IDX_BATTERY
  | PANE_IDX_TELEPHONE
  | PANE_IDX_VIRT_SENSORS
  | PANE_IDX_DPAD
  | PANE_IDX_FINGER
  | PANE_IDX_SETTINGS
  | PANE_IDX_HELP
deriving DecidableEq, Repr

/-- A call `handleUICommand` makes on the tool window itself, on `emulator_window` or on
`toolsUi->zoom_button`. -/
inductive Action where
  | showOrRaiseExtendedWindow (pane : ExtendedWindowPane)
  | screenshot
  | toggleZoomMode
  | zoomButtonSetChecked (checked : Bool)
  | zoomIn
  | scaleUp
  | zoomOut
  | scaleDown
  | panVertical (up : Bool)
  | panHorizontal (left : Bool)
  | queueEvent (event : SkinEvent)
  | zoomButtonClick
  | doResize (width height : Int) (isKbdShortcut flipDimensions : Bool)
  | skinUIEvent (event : SkinEvent)
deriving DecidableEq, Repr

/-- What `handleUICommand` asks of the emulator window, as a function of the calls made
so far: `isInZoomMode()` and `containerSize()` (width, height). -/
structure EmulatorWindow where
  isInZoomMode : List Action → Bool
  containerSize : List Action → Int × Int

/-- The method `ToolWindow::forwardKeyToEmulator(uint32_t keycode, bool down)`. -/
def forwardKeyToEmulator (log : List Action) (keycode : Nat) (down : Bool) : List Action :=
  -- skin_event->type = down ? kEventKeyDown : kEventKeyUp;
  -- skin_event->u.key.keycode = keycode; skin_event->u.key.mod = 0;
  -- emulator_window->queueEvent(skin_event);
  log ++ [Action.queueEvent
    { type := if down then SkinEventType.kEventKeyDown else SkinEventType.kEventKeyUp,
      u := SkinEventData.key { keycode := keycode, mod := 0 } }]

/-- The method `ToolWindow::handleUICommand(QtUICommand cmd, bool down)`: the calls made
so far, followed by the calls it makes. -/
def handleUICommand (W : EmulatorWindow) (K : HwEvents) (log : List Action) :
    QtUICommand → Bool → List Action
  | QtUICommand.SHOW_PANE_LOCATION, down =>
    if down then log ++ [Action.showOrRaiseExtendedWindow ExtendedWindowPane.PANE_IDX_LOCATION]
    else log
  | QtUICommand.SHOW_PANE_CELLULAR, down =>
    if down then log ++ [Action.showOrRaiseExtendedWindow ExtendedWindowPane.PANE_IDX_CELLULAR]
    else log
  | QtUICommand.SHOW_PANE_BATTERY, down =>
    if down then log ++ [Action.showOrRaiseExtendedWindow ExtendedWindowPane.PANE_IDX_BATTERY]
    else log
  | QtUICommand.SHOW_PANE_PHONE, down =>
    if down then log ++ [Action.showOrRaiseExtendedWindow ExtendedWindowPane.PANE_IDX_TELEPHONE]
    else log
  | QtUICommand.SHOW_PANE_VIRTSENSORS, down =>
    if down then
      log ++ [Action.showOrRaiseExtendedWindow ExtendedWindowPane.PANE_IDX_VIRT_SENSORS]
    else log
  | QtUICommand.SHOW_PANE_DPAD, down =>
    if down then log ++ [Action.showOrRaiseExtendedWindow ExtendedWindowPane.PANE_IDX_DPAD]
    else log
  | QtUICommand.SHOW_PANE_FINGER, down =>
    if down then log ++ [Action.showOrRaiseExtendedWindow ExtendedWindowPane.PANE_IDX_FINGER]
    else log
  | QtUICommand.SHOW_PANE_SETTINGS, down =>
    if down then log ++ [Action.showOrRaiseExtendedWindow ExtendedWindowPane.PANE_IDX_SETTINGS]
    else log
  | QtUICommand.SHOW_PANE_HELP, down =>
    if down then log ++ [Action.showOrRaiseExtendedWindow ExtendedWindowPane.PANE_IDX_HELP]
    else log
  | QtUICommand.TAKE_SCREENSHOT, down =>
    if down then log ++ [Action.screenshot] else log
  | QtUICommand.ENTER_ZOOM, down =>
    -- if (down) { emulator_window->toggleZoomMode(); }
    let log1 := if down then log ++ [Action.toggleZoomMode] else log
    -- toolsUi->zoom_button->setChecked(emulator_window->isInZoomMode());
    log1 ++ [Action.zoomButtonSetChecked (W.isInZoomMode log1)]
  | QtUICommand.ZOOM_IN, down =>
    if down then
      (if W.isInZoomMode log then log ++ [Action.zoomIn] else log ++ [Action.scaleUp])
    else log
  | QtUICommand.ZOOM_OUT, down =>
    if down then
      (if W.isInZoomMode log then log ++ [Action.zoomOut] else log ++ [Action.scaleDown])
    else log
  | QtUICommand.PAN_UP, down =>
    if down then log ++ [Action.panVertical true] else log
  | QtUICommand.PAN_DOWN, down =>
    if down then log ++ [Action.panVertical false] else log
  | QtUICommand.PAN_LEFT, down =>
    if down then log ++ [Action.panHorizontal true] else log
  | QtUICommand.PAN_RIGHT, down =>
    if down then log ++ [Action.panHorizontal false] else log
  | QtUICommand.VOLUME_UP, down => forwardKeyToEmulator log K.KEY_VOLUMEUP down
  | QtUICommand.VOLUME_DOWN, down => forwardKeyToEmulator log K.KEY_VOLUMEDOWN down
  | QtUICommand.POWER, down => forwardKeyToEmulator log K.KEY_POWER down
  | QtUICommand.MENU, down => forwardKeyToEmulator log K.KEY_SOFT1 down
  | QtUICommand.HOME, down => forwardKeyToEmulator log K.KEY_HOME down
  | QtUICommand.BACK, down => forwardKeyToEmulator log K.KEY_BACK down
  | QtUICommand.OVERVIEW, down => forwardKeyToEmulator log K.KEY_APPSWITCH down
  | QtUICommand.ROTATE_RIGHT, down =>
    if down then
      -- if (emulator_window->isInZoomMode()) { toolsUi->zoom_button->click(); }
      let log1 := if W.isInZoomMode log then log ++ [Action.zoomButtonClick] else log
      -- doResize(QSize(containerSize.height(), containerSize.width()), true, true);
      let log2 := log1 ++ [Action.doResize (W.containerSize log1).2 (W.containerSize log1).1
        true true]
      log2 ++ [Action.skinUIEvent
        { type := SkinEventType.kEventLayoutNext, u := SkinEventData.unset }]
    else log
  | QtUICommand.ROTATE_LEFT, down =>
    if down then
      let log1 := if W.isInZoomMode log then log ++ [Action.zoomButtonClick] else log
      let log2 := log1 ++ [Action.doResize (W.containerSize log1).2 (W.containerSize log1).1
        true true]
      log2 ++ [Action.skinUIEvent
        { type := SkinEventType.kEventLayoutPrev, u := SkinEventData.unset }]
    else log
  | QtUICommand.SHOW_MULTITOUCH, _ => log
  | QtUICommand.other _, _ => log

/-- What `ToolWindow::handleQtKeyEvent` reads of a `QEvent::Type`. -/
inductive QEventType where
  | KeyPress
  | KeyRelease
  | other (tag : Nat)
deriving DecidableEq, Repr

/-- What `ToolWindow::handleQtKeyEvent` reads of a `QKeyEvent`: `key()`, the bits of
`modifiers()` and `type()`. -/
structure QKeyEvent where
  key : Nat
  modifiers : Nat
  type : QEventType
deriving DecidableEq, Repr

/-- The flag `Qt::KeypadModifier`, `0x20000000`. -/
def KeypadModifier : Nat := 0x20000000

/-- The expression `event->modifiers() & ~Qt::KeypadModifier` on the 32-bit flags. -/
def withoutKeypad (modifiers : Nat) : Nat :=
  modifiers &&& (0xFFFFFFFF ^^^ KeypadModifier)

/-- The member `mShortcutKeyStore`, a parameter: `shortcut-key-store.h` is missing.  Its
method `handle(key_sequence, handler)` may run the handler on the tool window and
returns a `bool`; a key sequence `QKeySequence(int)` is the `int`. -/
structure ShortcutKeyStore where
  handle : {σ : Type} → Nat → (QtUICommand → σ → σ) → σ → Bool × σ

/-- The key sequence is bound to the command `cmd` in the store: `handle` hands `cmd`
to the handler, once, and returns `true`. -/
def Bound (store : ShortcutKeyStore) (key_sequence : Nat) (cmd : QtUICommand) : Prop :=
  ∀ (σ : Type) (handler : QtUICommand → σ → σ) (s : σ),
    store.handle key_sequence handler s = (true, handler cmd s)

/-- The body of `ToolWindow::handleQtKeyEvent(QKeyEvent* event)`, with the member
function the handler calls left open as `call`. -/
def handleQtKeyEventWith {σ : Type} (call : σ → QtUICommand → Bool → σ)
    (store : ShortcutKeyStore) (event : QKeyEvent) (s : σ) : Bool × σ :=
  -- QKeySequence event_key_sequence(event->key() +
  --                                 (event->modifiers() & ~Qt::KeypadModifier));
  let event_key_sequence := event.key + withoutKeypad event.modifiers
  -- bool down = event->type() == QEvent::KeyPress;
  let down := decide (event.type = QEventType.KeyPress)
  -- bool h = mShortcutKeyStore.handle(event_key_sequence, [this, down](QtUICommand cmd) {
  --     if (down) { handleUICommand(cmd, true); handleUICommand(cmd, false); } });
  store.handle event_key_sequence
    (fun cmd s => if down then call (call s cmd true) cmd false else s) s

/-- The method `bool ToolWindow::handleQtKeyEvent(QKeyEvent* event)`: the handler calls
`handleUICommand`. -/
def handleQtKeyEvent (W : EmulatorWindow) (K : HwEvents) (store : ShortcutKeyStore)
    (event : QKeyEvent) (log : List Action) : Bool × List Action :=
  handleQtKeyEventWith (handleUICommand W K) store event log

/-- A call that only records that it was made, to count invocations. -/
def recordCall (calls : List (QtUICommand × Bool)) (cmd : QtUICommand) (down : Bool) :
    List (QtUICommand × Bool) :=
  calls ++ [(cmd, down)]

/-- A store that binds the key sequence 65 to `VOLUME_UP` and nothing else. -/
def sampleStore : ShortcutKeyStore :=
  { handle := fun key_sequence handler s =>
      if key_sequence = 65 then (true, handler QtUICommand.VOLUME_UP s) else (false, s) }

/-- A press of the key 65 on the keypad. -/
def sampleEvent : QKeyEvent :=
  { key := 65, modifiers := KeypadModifier, type := QEventType.KeyPress }

/-- An emulator window that is never in zoom mode. -/
def sampleWindow : EmulatorWindow :=
  { isInZoomMode := fun _ => false, containerSize := fun _ => (480, 800) }

end ToolWindow

namespace goldfish_vk

/-! ## Storage lemmas -/

theorem resize_length (v : List Byte) (n : Nat) : (resize v n).length = n := by
  unfold resize
  split
  · simp; omega
  · simp; omega

/-- The storage `write` copies into is long enough for the span. -/
theorem grown_length (v : List Byte) (w n : Nat) :
    w + n ≤ (if v.length < w + n then resize v (w + n) else v).length := by
  split
  · rw [resize_length]
  · omega

/-- When the vector ends at the write cursor, growing it and copying the span in
appends the span. -/
theorem memcpyInto_grown (v b : List Byte) (w : Nat) (h : v.length = w) :
    memcpyInto (if v.length < w + b.length then resize v (w + b.length) else v) w b
      = v ++ b := by
  subst h
  unfold memcpyInto
  split
  · rename_i hlt
    unfold resize
    rw [if_neg (by omega)]
    simp
  · rename_i hge
    have hb : b = [] := by
      apply List.eq_nil_of_length_eq_zero; omega
    subst hb
    simp

/-- The bytes `memcpyInto` stores at `pos ..` are the span. -/
theorem memcpyInto_getElem? (v b : List Byte) (pos i : Nat)
    (hv : pos + b.length ≤ v.length) (hi : i < b.length) :
    (memcpyInto v pos b)[pos + i]? = b[i]? := by
  unfold memcpyInto
  have h1 : (v.take pos).length = pos := by simp; omega
  rw [List.append_assoc, List.getElem?_append_right (by omega)]
  rw [h1, Nat.add_sub_cancel_left, List.getElem?_append_left hi]

/-! ## One call -/

/-- The stream after `write`, when the vector ends at the write cursor. -/
theorem write_stream_eq (s : VulkanStreamForTesting) (b : List Byte)
    (h : s.mBuffer.length = s.mWriteCursor) :
    (write s b).stream =
      if s.mReadCursor = s.mWriteCursor + b.length then fresh
      else { mReadCursor := s.mReadCursor, mWriteCursor := s.mWriteCursor + b.length,
             mBuffer := s.mBuffer ++ b } := by
  simp only [write, memcpyInto_grown s.mBuffer b s.mWriteCursor h, clear, fresh]

/-- The stream after `read`. -/
theorem read_stream_eq (s : VulkanStreamForTesting) (n : Nat) :
    (read s n).stream =
      if s.mReadCursor + n = s.mWriteCursor then fresh
      else { s with mReadCursor := s.mReadCursor + n } := by
  simp only [read, clear, fresh]

theorem WInv_fresh : WInv fresh := by
  simp [WInv, fresh]

theorem Inv_fresh : Inv fresh := by
  simp [Inv, WInv, fresh]

theorem WInv_write (s : VulkanStreamForTesting) (b : List Byte) (h : WInv s) :
    WInv (write s b).stream := by
  rw [write_stream_eq s b h.1]
  split
  · exact WInv_fresh
  · rename_i hne
    refine ⟨by simp [h.1], fun heq => absurd heq hne⟩

theorem WInv_read (s : VulkanStreamForTesting) (n : Nat) (h : WInv s) :
    WInv (read s n).stream := by
  rw [read_stream_eq]
  split
  · exact WInv_fresh
  · rename_i hne
    exact ⟨h.1, fun heq => absurd heq hne⟩

theorem WInv_step (s : VulkanStreamForTesting) (op : Op) (h : WInv s) :
    WInv (step s op) := by
  cases op with
  | write b => exact WInv_write s b h
  | read n => exact WInv_read s n h

theorem WInv_run (ops : List Op) (s : VulkanStreamForTesting) (h : WInv s) :
    WInv (run s ops) := by
  induction ops generalizing s with
  | nil => exact h
  | cons op ops ih => exact ih (step s op) (WInv_step s op h)

theorem WInv_of_reachable (s : VulkanStreamForTesting) (h : Reachable s) : WInv s := by
  obtain ⟨ops, rfl⟩ := h
  exact WInv_run ops fresh WInv_fresh

/-- The expectation at the head of `read` fails exactly when the range read ends
past the vector. -/
theorem read_expectFailed_iff (s : VulkanStreamForTesting) (n : Nat) :
    (read s n).expectFailed = true ↔ s.mBuffer.length < s.mReadCursor + n := by
  simp [read]

theorem read_ok_iff (s : VulkanStreamForTesting) (n : Nat) :
    opOk s (Op.read n) = true ↔ s.mReadCursor + n ≤ s.mBuffer.length := by
  simp [opOk, read]

theorem Inv_write (s : VulkanStreamForTesting) (b : List Byte) (h : Inv s) :
    Inv (write s b).stream := by
  refine ⟨WInv_write s b h.1, ?_⟩
  rw [write_stream_eq s b h.1.1]
  split
  · simp [fresh]
  · have := h.2
    simp only
    omega

theorem Inv_read (s : VulkanStreamForTesting) (n : Nat) (h : Inv s)
    (hn : s.mReadCursor + n ≤ s.mWriteCursor) : Inv (read s n).stream := by
  refine ⟨WInv_read s n h.1, ?_⟩
  rw [read_stream_eq]
  split
  · simp [fresh]
  · simpa using hn

theorem Inv_step (s : VulkanStreamForTesting) (op : Op) (h : Inv s)
    (hok : opOk s op = true) : Inv (step s op) := by
  cases op with
  | write b => exact Inv_write s b h
  | read n =>
    have := (read_ok_iff s n).1 hok
    exact Inv_read s n h (by rw [← h.1.1]; exact this)

theorem Inv_run (ops : List Op) (s : VulkanStreamForTesting) (h : Inv s)
    (hok : allOk s ops = true) : Inv (run s ops) := by
  induction ops generalizing s with
  | nil => exact h
  | cons op ops ih =>
    simp only [allOk, Bool.and_eq_true] at hok
    exact ih (step s op) (Inv_step s op h hok.1) hok.2

/-! ## The unread content -/

/-- When the vector ends at the write cursor, the unread content is the vector from
the read cursor on. -/
theorem unread_eq_drop (s : VulkanStreamForTesting)
    (h : s.mBuffer.length = s.mWriteCursor) : unread s = s.mBuffer.drop s.mReadCursor := by
  unfold unread
  apply List.take_of_length_le
  simp [h]

theorem unread_fresh : unread fresh = [] := by
  simp [unread, fresh]

/-- A `write` on a stream whose read cursor has not passed the write cursor appends
the span to the unread content. -/
theorem unread_write (s : VulkanStreamForTesting) (b : List Byte) (h : Inv s) :
    unread (write s b).stream = unread s ++ b := by
  obtain ⟨⟨hlen, hemp⟩, hle⟩ := h
  rw [write_stream_eq s b hlen]
  split
  · rename_i heq
    have hb : b = [] := by
      apply List.eq_nil_of_length_eq_zero; omega
    have hs : s = fresh := hemp (by omega)
    subst hb
    rw [hs]
    simp [unread_fresh]
  · rw [unread_eq_drop _ (by simp [hlen]), unread_eq_drop s hlen]
    simp only
    rw [List.drop_append_of_le_length (by omega)]

/-- The bytes `memcpyFrom` delivers for a range inside the vector. -/
theorem read_data_eq (s : VulkanStreamForTesting) (n : Nat)
    (hn : s.mReadCursor + n ≤ s.mBuffer.length) :
    (read s n).data = some ((s.mBuffer.drop s.mReadCursor).take n) := by
  simp [read, memcpyFrom, hn]

/-- A `read` inside the written range delivers the head of the unread content and
leaves its tail. -/
theorem unread_read (s : VulkanStreamForTesting) (n : Nat) (h : WInv s) :
    (s.mBuffer.drop s.mReadCursor).take n ++ unread (read s n).stream = unread s := by
  obtain ⟨hlen, _⟩ := h
  rw [read_stream_eq, unread_eq_drop s hlen]
  split
  · rename_i heq
    rw [unread_fresh, List.append_nil]
    apply List.take_of_length_le
    simp [hlen]; omega
  · rw [unread_eq_drop _ (by simpa using hlen)]
    simp only
    rw [← List.drop_drop]
    exact List.take_append_drop n _

/-! ## Sequences of calls -/

theorem run_append (ops₁ ops₂ : List Op) (s : VulkanStreamForTesting) :
    run s (ops₁ ++ ops₂) = run (run s ops₁) ops₂ := by
  induction ops₁ generalizing s with
  | nil => rfl
  | cons op ops ih => exact ih (step s op)

theorem Inv_of_reachableOk (s : VulkanStreamForTesting) (h : ReachableOk s) : Inv s := by
  obtain ⟨ops, hok, rfl⟩ := h
  exact Inv_run ops fresh Inv_fresh hok

theorem reachable_of_reachableOk (s : VulkanStreamForTesting) (h : ReachableOk s) :
    Reachable s := by
  obtain ⟨ops, _, hrun⟩ := h
  exact ⟨ops, hrun⟩

/-- The states reached without an underflowing read are the reachable states whose
read cursor has not passed the write cursor. -/
theorem reachableOk_iff (s : VulkanStreamForTesting) :
    ReachableOk s ↔ Reachable s ∧ s.mReadCursor ≤ s.mWriteCursor := by
  constructor
  · intro h
    exact ⟨reachable_of_reachableOk s h, (Inv_of_reachableOk s h).2⟩
  · rintro ⟨hr, hle⟩
    obtain ⟨hlen, hemp⟩ := WInv_of_reachable s hr
    by_cases heq : s.mReadCursor = s.mWriteCursor
    · exact ⟨[], rfl, (hemp heq).symm⟩
    · have hw : (write fresh s.mBuffer).stream
          = { mReadCursor := 0, mWriteCursor := s.mWriteCursor, mBuffer := s.mBuffer } := by
        rw [write_stream_eq fresh s.mBuffer rfl]
        simp only [fresh, List.nil_append, Nat.zero_add, hlen]
        rw [if_neg (by omega)]
      refine ⟨[Op.write s.mBuffer, Op.read s.mReadCursor], ?_, ?_⟩
      · simp only [allOk, step, opOk, Bool.true_and, Bool.and_true, hw]
        simp [read, hlen, hle]
      · simp only [run, step, hw]
        rw [read_stream_eq]
        simp only [Nat.zero_add, if_neg heq]

/-- From a state whose read cursor has not passed the write cursor, the bytes delivered
by non-underflowing reads followed by what is left unread are the unread content at
the start followed by the bytes written. -/
theorem queue_from (ops : List Op) (s : VulkanStreamForTesting) (h : Inv s)
    (hok : allOk s ops = true) :
    ∃ out, readBytes s ops = some out ∧
      out ++ unread (run s ops) = unread s ++ written ops := by
  induction ops generalizing s with
  | nil => exact ⟨[], rfl, by simp [run, written]⟩
  | cons op ops ih =>
    simp only [allOk, Bool.and_eq_true] at hok
    obtain ⟨hop, hrest⟩ := hok
    cases op with
    | write b =>
      obtain ⟨out, hout, heq⟩ := ih (write s b).stream (Inv_write s b h) hrest
      refine ⟨out, hout, ?_⟩
      simp only [run, step, written]
      rw [heq, unread_write s b h, List.append_assoc]
    | read n =>
      have hn := (read_ok_iff s n).1 hop
      have hn' : s.mReadCursor + n ≤ s.mWriteCursor := by rw [← h.1.1]; exact hn
      obtain ⟨out, hout, heq⟩ := ih (read s n).stream (Inv_read s n h hn') hrest
      refine ⟨(s.mBuffer.drop s.mReadCursor).take n ++ out, ?_, ?_⟩
      · simp only [readBytes, read_data_eq s n hn]
        rw [hout]
      · simp only [run, step, written]
        rw [List.append_assoc, heq, ← List.append_assoc, unread_read s n h.1]

/-- Writes keep the read cursor behind the write cursor and add their bytes to the
number of unread bytes. -/
theorem run_writes (spans : List (List Byte)) (s : VulkanStreamForTesting) (h : Inv s) :
    Inv (run s (spans.map Op.write)) ∧
    (run s (spans.map Op.write)).mWriteCursor - (run s (spans.map Op.write)).mReadCursor
      = s.mWriteCursor - s.mReadCursor + totalLength spans := by
  induction spans generalizing s with
  | nil => exact ⟨h, by simp [run, totalLength]⟩
  | cons b bs ih =>
    obtain ⟨hinv, hcount⟩ := ih (write s b).stream (Inv_write s b h)
    refine ⟨hinv, ?_⟩
    simp only [List.map_cons, run, step]
    rw [hcount]
    have hle := h.2
    have hstep : (write s b).stream.mWriteCursor - (write s b).stream.mReadCursor
        = s.mWriteCursor - s.mReadCursor + b.length := by
      rw [write_stream_eq s b h.1.1]
      split
      · simp [fresh]; omega
      · simp only; omega
    rw [hstep]
    simp only [totalLength, List.map_cons, List.sum_cons]
    omega

/-- Reads that consume exactly the unread bytes leave the cleared state. -/
theorem run_reads_drain (counts : List Nat) (s : VulkanStreamForTesting) (h : Inv s)
    (hsum : counts.sum = s.mWriteCursor - s.mReadCursor) :
    run s (counts.map Op.read) = fresh := by
  induction counts generalizing s with
  | nil =>
    simp only [List.sum_nil] at hsum
    exact h.1.2 (by have := h.2; omega)
  | cons n ns ih =>
    simp only [List.sum_cons] at hsum
    have hle := h.2
    have hn : s.mReadCursor + n ≤ s.mWriteCursor := by omega
    simp only [List.map_cons, run, step]
    apply ih (read s n).stream (Inv_read s n h hn)
    rw [read_stream_eq]
    split
    · simp [fresh]; omega
    · simp only; omega

/-- One full-write/full-read cycle on a cleared stream leaves it cleared. -/
theorem run_cycle (c : List (List Byte) × List Nat) (h : c.2.sum = totalLength c.1) :
    run fresh (cycle c) = fresh := by
  obtain ⟨hinv, hcount⟩ := run_writes c.1 fresh Inv_fresh
  rw [cycle, run_append]
  apply run_reads_drain c.2 _ hinv
  rw [hcount, h]
  simp [fresh]

/-! ## The claims -/

/-- C2.  For every sequence of writes and non-underflowing reads on a
default-constructed stream, every read delivers defined bytes, and the bytes delivered
by the reads in call order, followed by the unread content
`mBuffer[mReadCursor .. mWriteCursor)`, are the written spans in call order. -/
theorem fifo (ops : List Op) (hok : allOk fresh ops = true) :
    ∃ out, readBytes fresh ops = some out ∧
      out ++ unread (run fresh ops) = written ops := by
  obtain ⟨out, hout, heq⟩ := queue_from ops fresh Inv_fresh hok
  exact ⟨out, hout, by simpa [unread_fresh] using heq⟩

theorem fifo_witness :
    allOk fresh [Op.write [1, 2], Op.read 1, Op.write [3], Op.read 2, Op.write [4]] = true ∧
    ∃ out, readBytes fresh
        [Op.write [1, 2], Op.read 1, Op.write [3], Op.read 2, Op.write [4]] = some out ∧
      out ++ unread (run fresh
        [Op.write [1, 2], Op.read 1, Op.write [3], Op.read 2, Op.write [4]])
        = written [Op.write [1, 2], Op.read 1, Op.write [3], Op.read 2, Op.write [4]] :=
  ⟨by decide, fifo _ (by decide)⟩

/-- C3.  In every reachable state and for every `count` with
`mReadCursor + count ≤ mWriteCursor`, `read(count)` passes its expectation, returns
`count`, and delivers exactly `count` bytes, the `i`-th of which is the byte stored
at position `mReadCursor + i` of the vector. -/
theorem read_returns_stored (s : VulkanStreamForTesting) (count : Nat) (h : Reachable s)
    (hc : s.mReadCursor + count ≤ s.mWriteCursor) :
    (read s count).ret = (count : Int) ∧ (read s count).expectFailed = false ∧
    ∃ d, (read s count).data = some d ∧ d.length = count ∧
      ∀ i, i < count → ∃ x, d[i]? = some x ∧ s.mBuffer[s.mReadCursor + i]? = some x := by
  have hlen := (WInv_of_reachable s h).1
  have hb : s.mReadCursor + count ≤ s.mBuffer.length := by omega
  refine ⟨rfl, ?_, _, read_data_eq s count hb, ?_, ?_⟩
  · simp [read, hb]
  · simp; omega
  · intro i hi
    have hi' : s.mReadCursor + i < s.mBuffer.length := by omega
    refine ⟨s.mBuffer[s.mReadCursor + i], ?_, List.getElem?_eq_getElem hi'⟩
    rw [List.getElem?_take_of_lt hi, List.getElem?_drop, List.getElem?_eq_getElem hi']

theorem read_returns_stored_witness :
    Reachable (run fresh [Op.write [5, 6, 7], Op.read 1]) ∧
    (run fresh [Op.write [5, 6, 7], Op.read 1]).mReadCursor + 2
      ≤ (run fresh [Op.write [5, 6, 7], Op.read 1]).mWriteCursor ∧
    ((read (run fresh [Op.write [5, 6, 7], Op.read 1]) 2).ret = ((2 : Nat) : Int) ∧
     (read (run fresh [Op.write [5, 6, 7], Op.read 1]) 2).expectFailed = false ∧
     ∃ d, (read (run fresh [Op.write [5, 6, 7], Op.read 1]) 2).data = some d ∧
       d.length = 2 ∧
       ∀ i, i < 2 → ∃ x, d[i]? = some x ∧
         (run fresh [Op.write [5, 6, 7], Op.read 1]).mBuffer[
           (run fresh [Op.write [5, 6, 7], Op.read 1]).mReadCursor + i]? = some x) :=
  ⟨⟨_, rfl⟩, by decide, read_returns_stored _ 2 ⟨_, rfl⟩ (by decide)⟩

/-- C4, as the code has it.  In every state reached by writes and non-underflowing
reads, `write(b)` returns `len(b)` and the unread content afterwards is the unread
content before followed by `b`. -/
theorem write_appends (s : VulkanStreamForTesting) (b : List Byte) (h : ReachableOk s) :
    (write s b).ret = (b.length : Int) ∧
    unread (write s b).stream = unread s ++ b :=
  ⟨rfl, unread_write s b (Inv_of_reachableOk s h)⟩

theorem write_appends_witness :
    ReachableOk (run fresh [Op.write [1, 2], Op.read 1]) ∧
    ((write (run fresh [Op.write [1, 2], Op.read 1]) [3, 4]).ret
        = (([3, 4] : List Byte).length : Int) ∧
     unread (write (run fresh [Op.write [1, 2], Op.read 1]) [3, 4]).stream
        = unread (run fresh [Op.write [1, 2], Op.read 1]) ++ [3, 4]) :=
  ⟨⟨_, by decide, rfl⟩, write_appends _ [3, 4] ⟨_, by decide, rfl⟩⟩

/-- C4 as stated fails: after a read that underflowed by one byte, the read cursor is
one past the write cursor, and a write of one byte makes the cursors meet, so the
stream is cleared and the byte written is not in the unread content. -/
theorem write_after_underflow_drops :
    (write (run fresh [Op.write [1, 2], Op.read 2, Op.read 1]) [9]).stream = fresh ∧
    unread (write (run fresh [Op.write [1, 2], Op.read 2, Op.read 1]) [9]).stream
      ≠ unread (run fresh [Op.write [1, 2], Op.read 2, Op.read 1]) ++ [9] := by
  decide

/-- C5, as the code has it.  In every state reached from a default-constructed stream
by writes and non-underflowing reads,
`mReadCursor ≤ mWriteCursor ≤ mBuffer.size()`. -/
theorem cursors_ordered (s : VulkanStreamForTesting) (h : ReachableOk s) :
    s.mReadCursor ≤ s.mWriteCursor ∧ s.mWriteCursor ≤ s.mBuffer.length := by
  obtain ⟨⟨hlen, _⟩, hle⟩ := Inv_of_reachableOk s h
  exact ⟨hle, by omega⟩

theorem cursors_ordered_witness :
    ReachableOk (run fresh [Op.write [1, 2, 3], Op.read 2]) ∧
    ((run fresh [Op.write [1, 2, 3], Op.read 2]).mReadCursor
        ≤ (run fresh [Op.write [1, 2, 3], Op.read 2]).mWriteCursor ∧
     (run fresh [Op.write [1, 2, 3], Op.read 2]).mWriteCursor
        ≤ (run fresh [Op.write [1, 2, 3], Op.read 2]).mBuffer.length) :=
  ⟨⟨_, by decide, rfl⟩, cursors_ordered _ ⟨_, by decide, rfl⟩⟩

/-- C5 as stated fails: after two bytes were written and read, a read of one more
byte leaves the read cursor at 1 and the write cursor at 0. -/
theorem read_cursor_passes_write_cursor :
    ¬ ((run fresh [Op.write [1, 2], Op.read 2, Op.read 1]).mReadCursor
        ≤ (run fresh [Op.write [1, 2], Op.read 2, Op.read 1]).mWriteCursor) := by
  decide

/-- C6.  A stream is constructed with both cursors 0 and an empty vector.  In every
reachable state (so after every `write` or `read` has returned) the cursors are equal
exactly when both are 0 and the vector has length 0.  A call leaves the stream in
the cleared state exactly when the cursors meet after its advance: for `write(b)` when
`mReadCursor = mWriteCursor + len(b)`, for `read(n)` when
`mReadCursor + n = mWriteCursor`. -/
theorem reset_iff_cursors_meet (s : VulkanStreamForTesting) (h : Reachable s) :
    (fresh.mReadCursor = 0 ∧ fresh.mWriteCursor = 0 ∧ fresh.mBuffer.length = 0) ∧
    (s.mReadCursor = s.mWriteCursor ↔
      s.mReadCursor = 0 ∧ s.mWriteCursor = 0 ∧ s.mBuffer.length = 0) ∧
    (∀ b : List Byte,
      (write s b).stream = fresh ↔ s.mReadCursor = s.mWriteCursor + b.length) ∧
    (∀ n : Nat, (read s n).stream = fresh ↔ s.mReadCursor + n = s.mWriteCursor) := by
  obtain ⟨hlen, hemp⟩ := WInv_of_reachable s h
  refine ⟨by simp [fresh], ⟨fun heq => ?_, fun hz => by omega⟩, fun b => ?_, fun n => ?_⟩
  · rw [hemp heq]; simp [fresh]
  · rw [write_stream_eq s b hlen]
    split
    · rename_i heq; simp [heq]
    · rename_i hne
      simp only [fresh, VulkanStreamForTesting.mk.injEq]
      constructor
      · rintro ⟨h1, h2, -⟩; omega
      · intro h1; exact absurd h1 hne
  · rw [read_stream_eq]
    split
    · rename_i heq; simp [heq]
    · rename_i hne
      constructor
      · intro h1
        have h2 := congrArg VulkanStreamForTesting.mReadCursor h1
        have h3 := congrArg VulkanStreamForTesting.mWriteCursor h1
        simp only [fresh] at h2 h3
        omega
      · intro h1; exact absurd h1 hne

theorem reset_iff_cursors_meet_witness :
    Reachable (run fresh [Op.write [1, 2], Op.read 1]) ∧
    ((fresh.mReadCursor = 0 ∧ fresh.mWriteCursor = 0 ∧ fresh.mBuffer.length = 0) ∧
     ((run fresh [Op.write [1, 2], Op.read 1]).mReadCursor
        = (run fresh [Op.write [1, 2], Op.read 1]).mWriteCursor ↔
      (run fresh [Op.write [1, 2], Op.read 1]).mReadCursor = 0 ∧
      (run fresh [Op.write [1, 2], Op.read 1]).mWriteCursor = 0 ∧
      (run fresh [Op.write [1, 2], Op.read 1]).mBuffer.length = 0) ∧
     (∀ b : List Byte,
      (write (run fresh [Op.write [1, 2], Op.read 1]) b).stream = fresh ↔
        (run fresh [Op.write [1, 2], Op.read 1]).mReadCursor
          = (run fresh [Op.write [1, 2], Op.read 1]).mWriteCursor + b.length) ∧
     (∀ n : Nat, (read (run fresh [Op.write [1, 2], Op.read 1]) n).stream = fresh ↔
        (run fresh [Op.write [1, 2], Op.read 1]).mReadCursor + n
          = (run fresh [Op.write [1, 2], Op.read 1]).mWriteCursor)) :=
  ⟨⟨_, rfl⟩, reset_iff_cursors_meet _ ⟨_, rfl⟩⟩

/-- C7.  Writing a list of spans to a default-constructed stream and then reading a
list of counts whose sum is the number of bytes written leaves the vector with
length 0 and both cursors 0; and so does every sequence of such cycles. -/
theorem drained_after_cycles (spans : List (List Byte)) (counts : List Nat)
    (h : counts.sum = totalLength spans) :
    ((run fresh (spans.map Op.write ++ counts.map Op.read)).mBuffer.length = 0 ∧
     (run fresh (spans.map Op.write ++ counts.map Op.read)).mReadCursor = 0 ∧
     (run fresh (spans.map Op.write ++ counts.map Op.read)).mWriteCursor = 0) ∧
    ∀ cs : List (List (List Byte) × List Nat),
      (∀ c ∈ cs, c.2.sum = totalLength c.1) →
      (run fresh (cycles cs)).mBuffer.length = 0 ∧
      (run fresh (cycles cs)).mReadCursor = 0 ∧
      (run fresh (cycles cs)).mWriteCursor = 0 := by
  constructor
  · have := run_cycle (spans, counts) h
    simp only [cycle] at this
    rw [this]
    simp [fresh]
  · intro cs hcs
    have hrun : run fresh (cycles cs) = fresh := by
      induction cs with
      | nil => rfl
      | cons c cs ih =>
        rw [cycles, run_append, run_cycle c (hcs c (List.mem_cons_self c cs))]
        exact ih (fun c' hc' => hcs c' (List.mem_cons_of_mem c hc'))
    rw [hrun]
    simp [fresh]

theorem drained_after_cycles_witness :
    [2, 0, 1].sum = totalLength [[1], [], [2, 3]] ∧
    ((run fresh ([[1], [], [2, 3]].map Op.write ++ [2, 0, 1].map Op.read)).mBuffer.length = 0 ∧
     (run fresh ([[1], [], [2, 3]].map Op.write ++ [2, 0, 1].map Op.read)).mReadCursor = 0 ∧
     (run fresh ([[1], [], [2, 3]].map Op.write ++ [2, 0, 1].map Op.read)).mWriteCursor = 0) ∧
    (∀ c ∈ [([[1], [2]], [2]), ([[3, 4, 5]], [1, 0, 2])], c.2.sum = totalLength c.1) ∧
    ((run fresh (cycles [([[1], [2]], [2]), ([[3, 4, 5]], [1, 0, 2])])).mBuffer.length = 0 ∧
     (run fresh (cycles [([[1], [2]], [2]), ([[3, 4, 5]], [1, 0, 2])])).mReadCursor = 0 ∧
     (run fresh (cycles [([[1], [2]], [2]), ([[3, 4, 5]], [1, 0, 2])])).mWriteCursor = 0) :=
  ⟨by decide,
   (drained_after_cycles [[1], [], [2, 3]] [2, 0, 1] (by decide)).1,
   by decide,
   (drained_after_cycles [[1], [], [2, 3]] [2, 0, 1] (by decide)).2
     [([[1], [2]], [2]), ([[3, 4, 5]], [1, 0, 2])] (by decide)⟩

/-- C8.  For every state `(r, w)`, reachable or not, and every span `b`, after
`write(b)`: if `r ≠ w + len(b)` the write cursor is `w + len(b)`, the read cursor is
`r`, and positions `w .. w + len(b) - 1` of the vector hold `b`; if `r = w + len(b)`
both cursors are 0 and the vector has length 0. -/
theorem write_effect (s : VulkanStreamForTesting) (b : List Byte) :
    (s.mReadCursor ≠ s.mWriteCursor + b.length →
      (write s b).stream.mWriteCursor = s.mWriteCursor + b.length ∧
      (write s b).stream.mReadCursor = s.mReadCursor ∧
      ∀ i, i < b.length →
        ∃ x, b[i]? = some x ∧ (write s b).stream.mBuffer[s.mWriteCursor + i]? = some x) ∧
    (s.mReadCursor = s.mWriteCursor + b.length →
      (write s b).stream.mReadCursor = 0 ∧ (write s b).stream.mWriteCursor = 0 ∧
      (write s b).stream.mBuffer.length = 0) := by
  constructor
  · intro hne
    simp only [write, if_neg hne, true_and]
    intro i hi
    refine ⟨b[i], List.getElem?_eq_getElem hi, ?_⟩
    rw [memcpyInto_getElem? _ b s.mWriteCursor i (grown_length _ _ _) hi]
    exact List.getElem?_eq_getElem hi
  · intro heq
    simp [write, if_pos heq, clear]

theorem write_effect_witness :
    ((run fresh [Op.write [1, 2], Op.read 1]).mReadCursor
        ≠ (run fresh [Op.write [1, 2], Op.read 1]).mWriteCursor + ([3, 4] : List Byte).length) ∧
    ((write (run fresh [Op.write [1, 2], Op.read 1]) [3, 4]).stream.mWriteCursor = 4 ∧
     (write (run fresh [Op.write [1, 2], Op.read 1]) [3, 4]).stream.mReadCursor = 1 ∧
     ∀ i, i < ([3, 4] : List Byte).length →
       ∃ x, ([3, 4] : List Byte)[i]? = some x ∧
         (write (run fresh [Op.write [1, 2], Op.read 1]) [3, 4]).stream.mBuffer[
           (run fresh [Op.write [1, 2], Op.read 1]).mWriteCursor + i]? = some x) :=
  ⟨by decide,
   (write_effect (run fresh [Op.write [1, 2], Op.read 1]) [3, 4]).1 (by decide)⟩

/-- C9.  For every state `(r, w)`, reachable or not, and every `count` (so for every
`count` with `r + count ≤ w`), after `read(count)`: if `r + count ≠ w` the read cursor
is `r + count` and the write cursor and the vector are unchanged; if `r + count = w`
both cursors are 0 and the vector has length 0. -/
theorem read_effect (s : VulkanStreamForTesting) (count : Nat) :
    (s.mReadCursor + count ≠ s.mWriteCursor →
      (read s count).stream.mReadCursor = s.mReadCursor + count ∧
      (read s count).stream.mWriteCursor = s.mWriteCursor ∧
      (read s count).stream.mBuffer = s.mBuffer) ∧
    (s.mReadCursor + count = s.mWriteCursor →
      (read s count).stream.mReadCursor = 0 ∧ (read s count).stream.mWriteCursor = 0 ∧
      (read s count).stream.mBuffer.length = 0) := by
  constructor
  · intro hne
    simp [read, if_neg hne]
  · intro heq
    simp [read, if_pos heq, clear]

theorem read_effect_witness :
    ((run fresh [Op.write [1, 2, 3]]).mReadCursor + 2
        ≠ (run fresh [Op.write [1, 2, 3]]).mWriteCursor) ∧
    ((read (run fresh [Op.write [1, 2, 3]]) 2).stream.mReadCursor
        = (run fresh [Op.write [1, 2, 3]]).mReadCursor + 2 ∧
     (read (run fresh [Op.write [1, 2, 3]]) 2).stream.mWriteCursor
        = (run fresh [Op.write [1, 2, 3]]).mWriteCursor ∧
     (read (run fresh [Op.write [1, 2, 3]]) 2).stream.mBuffer
        = (run fresh [Op.write [1, 2, 3]]).mBuffer) :=
  ⟨by decide, (read_effect (run fresh [Op.write [1, 2, 3]]) 2).1 (by decide)⟩

/-- C10, as the code has it.  In every state reached by writes and non-underflowing
reads, a default-constructed stream and a stream just drained and cleared included,
`read(0)` passes its expectation, returns 0, delivers no bytes, and leaves both cursors
and the vector unchanged. -/
theorem read_zero_noop (s : VulkanStreamForTesting) (h : ReachableOk s) :
    (read s 0).expectFailed = false ∧ (read s 0).ret = 0 ∧
    (read s 0).data = some [] ∧ (read s 0).stream = s := by
  obtain ⟨⟨hlen, hemp⟩, hle⟩ := Inv_of_reachableOk s h
  refine ⟨?_, rfl, ?_, ?_⟩
  · simp [read]; omega
  · rw [read_data_eq s 0 (by omega)]; simp
  · rw [read_stream_eq]
    split
    · rename_i heq; exact (hemp heq).symm
    · rfl

theorem read_zero_noop_witness :
    ReachableOk (run fresh [Op.write [1, 2], Op.read 2]) ∧
    ((read (run fresh [Op.write [1, 2], Op.read 2]) 0).expectFailed = false ∧
     (read (run fresh [Op.write [1, 2], Op.read 2]) 0).ret = 0 ∧
     (read (run fresh [Op.write [1, 2], Op.read 2]) 0).data = some [] ∧
     (read (run fresh [Op.write [1, 2], Op.read 2]) 0).stream
        = run fresh [Op.write [1, 2], Op.read 2]) :=
  ⟨⟨_, by decide, rfl⟩, read_zero_noop _ ⟨_, by decide, rfl⟩⟩

/-- C10 as stated fails: in the state left by a read that underflowed, the read
cursor is past the end of the vector and `read(0)` fails its expectation. -/
theorem read_zero_after_underflow_fails :
    (read (run fresh [Op.write [1, 2], Op.read 2, Op.read 1]) 0).expectFailed = true := by
  decide

/-! ## The codec primitives -/

theorem beBytes_length (width v : Nat) : (beBytes width v).length = width := by
  induction width generalizing v with
  | zero => rfl
  | succ n ih => simp [beBytes, ih]

theorem beValue_append (d : List Byte) (b : Byte) :
    beValue (d ++ [b]) = beValue d * 256 + b.val := by
  simp [beValue, List.foldl_append]

/-- Decoding the big-endian bytes of `v` gives `v` modulo `256 ^ width`. -/
theorem beValue_beBytes (width v : Nat) : beValue (beBytes width v) = v % 256 ^ width := by
  induction width generalizing v with
  | zero => simp [beBytes, beValue, Nat.mod_one]
  | succ n ih =>
    rw [beBytes, beValue_append, ih, pow_succ', Nat.mod_mul]
    simp only [byteOf]
    omega

/-- The four big-endian bytes of a 32-bit integer. -/
theorem beBytes_four (v : Nat) :
    beBytes 4 v = [byteOf (v / 2 ^ 24), byteOf (v / 2 ^ 16), byteOf (v / 2 ^ 8), byteOf v] := by
  simp only [beBytes, List.nil_append, List.cons_append, Nat.div_div_eq_div_mul]
  norm_num

/-- Writing a span, on a stream whose read cursor has not passed the write cursor. -/
theorem putBytes_spec (s : VulkanStreamForTesting) (b : List Byte) (h : Inv s) :
    Inv (putBytes s b) ∧ unread (putBytes s b) = unread s ++ b :=
  ⟨Inv_write s b h, unread_write s b h⟩

/-- Reading the head of the unread content. -/
theorem getBytes_spec (s : VulkanStreamForTesting) (d rest : List Byte) (h : Inv s)
    (hu : unread s = d ++ rest) :
    ∃ s', getBytes s d.length = some (d, s') ∧ Inv s' ∧ unread s' = rest := by
  have hdrop := unread_eq_drop s h.1.1
  have hlen : (unread s).length = s.mWriteCursor - s.mReadCursor := by
    rw [hdrop, List.length_drop, h.1.1]
  have hd : d.length ≤ s.mWriteCursor - s.mReadCursor := by
    rw [← hlen, hu, List.length_append]; omega
  have hle := h.2
  have hn : s.mReadCursor + d.length ≤ s.mWriteCursor := by omega
  have hdata : (s.mBuffer.drop s.mReadCursor).take d.length = d := by
    rw [← hdrop, hu, List.take_left]
  refine ⟨(read s d.length).stream, ?_, Inv_read s d.length h hn, ?_⟩
  · simp only [getBytes, read_data_eq s d.length (by rw [h.1.1]; exact hn), hdata]
  · have := unread_read s d.length h.1
    rw [hdata, hu] at this
    exact List.append_cancel_left this

theorem putBe_spec (width : Nat) (s : VulkanStreamForTesting) (v : Nat) (h : Inv s) :
    Inv (putBe width s v) ∧ unread (putBe width s v) = unread s ++ beBytes width v :=
  putBytes_spec s (beBytes width v) h

theorem getBe_spec (width : Nat) (s : VulkanStreamForTesting) (v : Nat) (rest : List Byte)
    (h : Inv s) (hu : unread s = beBytes width v ++ rest) :
    ∃ s', getBe width s = some (v % 256 ^ width, s') ∧ Inv s' ∧ unread s' = rest := by
  obtain ⟨s', hget, hinv, hrest⟩ := getBytes_spec s (beBytes width v) rest h hu
  rw [beBytes_length] at hget
  exact ⟨s', by simp only [getBe, hget, beValue_beBytes], hinv, hrest⟩

/-- A stream whose read cursor has not passed the write cursor and that has no unread
content is the cleared stream. -/
theorem eq_fresh_of_unread_nil (s : VulkanStreamForTesting) (h : Inv s)
    (hu : unread s = []) : s = fresh := by
  apply h.1.2
  have hlen : (unread s).length = s.mWriteCursor - s.mReadCursor := by
    rw [unread_eq_drop s h.1.1, List.length_drop, h.1.1]
  rw [hu] at hlen
  have := h.2
  simp only [List.length_nil] at hlen
  omega

/-! ## Marshaling and unmarshaling -/

/-- What it means for a marshal function `f` to emit the payload `enc x` for `x`. -/
theorem marshalList_spec {α : Type}
    (f : VulkanStreamForTesting → α → VulkanStreamForTesting) (enc : α → List Byte)
    (xs : List α)
    (hf : ∀ x ∈ xs, ∀ s, Inv s → Inv (f s x) ∧ unread (f s x) = unread s ++ enc x)
    (s : VulkanStreamForTesting) (h : Inv s) :
    Inv (marshalList f s xs) ∧
    unread (marshalList f s xs) = unread s ++ encodeList enc xs := by
  induction xs generalizing s with
  | nil => exact ⟨h, by simp [marshalList, encodeList]⟩
  | cons x xs ih =>
    obtain ⟨hinv, hun⟩ := hf x (List.mem_cons_self x xs) s h
    obtain ⟨hinv', hun'⟩ :=
      ih (fun y hy => hf y (List.mem_cons_of_mem x hy)) (f s x) hinv
    refine ⟨hinv', ?_⟩
    simp only [marshalList, encodeList]
    rw [hun', hun, List.append_assoc]

theorem unmarshalList_spec {α : Type}
    (g : VulkanStreamForTesting → Option (α × VulkanStreamForTesting))
    (enc : α → List Byte) (xs : List α)
    (hg : ∀ x ∈ xs, ∀ s rest, Inv s → unread s = enc x ++ rest →
      ∃ s', g s = some (x, s') ∧ Inv s' ∧ unread s' = rest)
    (s : VulkanStreamForTesting) (rest : List Byte) (h : Inv s)
    (hu : unread s = encodeList enc xs ++ rest) :
    ∃ s', unmarshalList g xs.length s = some (xs, s') ∧ Inv s' ∧ unread s' = rest := by
  induction xs generalizing s with
  | nil =>
    exact ⟨s, rfl, h, by simpa [encodeList] using hu⟩
  | cons x xs ih =>
    simp only [encodeList, List.append_assoc] at hu
    obtain ⟨s1, hx, hinv1, hun1⟩ := hg x (List.mem_cons_self x xs) s _ h hu
    obtain ⟨s2, hxs, hinv2, hun2⟩ :=
      ih (fun y hy => hg y (List.mem_cons_of_mem x hy)) s1 hinv1 hun1
    exact ⟨s2, by simp only [List.length_cons, unmarshalList, hx, hxs], hinv2, hun2⟩

/-- On a stream whose read cursor has not passed the write cursor, `marshal` appends
the wire format of the value to the unread content. -/
theorem marshal_spec (sh : Shape) (v : Val sh) (s : VulkanStreamForTesting) (h : Inv s) :
    Inv (marshal sh s v) ∧ unread (marshal sh s v) = unread s ++ encode sh v := by
  induction sh generalizing s with
  | scalar width => exact putBe_spec width s v h
  | fixedArray n elem ih =>
    exact marshalList_spec (marshal elem) (encode elem) v (fun x _ s hs => ih x s hs) s h
  | structNil => exact ⟨h, by simp [marshal, encode]⟩
  | structCons field rest ihf ihr =>
    obtain ⟨h1, hu1⟩ := ihf v.1 s h
    obtain ⟨h2, hu2⟩ := ihr v.2 _ h1
    refine ⟨h2, ?_⟩
    simp only [marshal, encode]
    rw [hu2, hu1, List.append_assoc]
  | optionalPointer target ih =>
    cases v with
    | none => exact putBe_spec 1 s 0 h
    | some x =>
      obtain ⟨h1, hu1⟩ := putBe_spec 1 s 1 h
      obtain ⟨h2, hu2⟩ := ih x _ h1
      refine ⟨h2, ?_⟩
      simp only [marshal, marshalOptional, encode]
      rw [hu2, hu1, List.append_assoc]
      rfl
  | countedArray elem ih =>
    obtain ⟨h1, hu1⟩ := putBe_spec 4 s (List.length v) h
    obtain ⟨h2, hu2⟩ := marshalList_spec (marshal elem) (encode elem) v
      (fun x _ s hs => ih x s hs) _ h1
    refine ⟨h2, ?_⟩
    simp only [marshal, marshalCounted, putBe32, encode]
    rw [hu2, hu1, List.append_assoc]
  | opaqueBlob size => exact putBytes_spec s v h

/-- On a stream whose unread content starts with the wire format of a legal value,
`unmarshal` yields the value and leaves what follows it unread. -/
theorem unmarshal_spec (sh : Shape) (v : Val sh) (hv : Legal sh v)
    (s : VulkanStreamForTesting) (rest : List Byte) (h : Inv s)
    (hu : unread s = encode sh v ++ rest) :
    ∃ s', unmarshal sh s = some (v, s') ∧ Inv s' ∧ unread s' = rest := by
  induction sh generalizing s rest with
  | scalar width =>
    obtain ⟨s', hget, hinv, hrest⟩ := getBe_spec width s v rest h hu
    rw [Nat.mod_eq_of_lt hv] at hget
    exact ⟨s', hget, hinv, hrest⟩
  | fixedArray n elem ih =>
    obtain ⟨hlen, hall⟩ := hv
    have := unmarshalList_spec (unmarshal elem) (encode elem) v
      (fun x hx s rest hs hus => ih x (hall x hx) s rest hs hus) s rest h hu
    rw [hlen] at this
    exact this
  | structNil => exact ⟨s, rfl, h, by simpa [encode] using hu⟩
  | structCons field rest' ihf ihr =>
    simp only [encode, List.append_assoc] at hu
    obtain ⟨s1, hx, hinv1, hun1⟩ := ihf v.1 hv.1 s _ h hu
    obtain ⟨s2, hy, hinv2, hun2⟩ := ihr v.2 hv.2 s1 rest hinv1 hun1
    exact ⟨s2, by simp only [unmarshal, hx, hy], hinv2, hun2⟩
  | optionalPointer target ih =>
    cases v with
    | none =>
      obtain ⟨s1, hget, hinv, hrest⟩ := getBe_spec 1 s 0 rest h hu
      exact ⟨s1, by simp [unmarshal, unmarshalOptional, hget], hinv, hrest⟩
    | some x =>
      have hu' : unread s = beBytes 1 1 ++ (encode target x ++ rest) := by
        rw [hu]; rfl
      obtain ⟨s1, hget, hinv1, hun1⟩ := getBe_spec 1 s 1 _ h hu'
      obtain ⟨s2, hx, hinv2, hun2⟩ := ih x hv s1 rest hinv1 hun1
      exact ⟨s2, by simp [unmarshal, unmarshalOptional, hget, hx], hinv2, hun2⟩
  | countedArray elem ih =>
    obtain ⟨hlen, hall⟩ := hv
    simp only [encode, List.append_assoc] at hu
    obtain ⟨s1, hget, hinv1, hun1⟩ := getBe_spec 4 s (List.length v) _ h hu
    rw [Nat.mod_eq_of_lt (by simpa using hlen)] at hget
    obtain ⟨s2, hxs, hinv2, hun2⟩ := unmarshalList_spec (unmarshal elem) (encode elem) v
      (fun x hx s rest hs hus => ih x (hall x hx) s rest hs hus) s1 rest hinv1 hun1
    exact ⟨s2, by simp only [unmarshal, unmarshalCounted, getBe32, hget, hxs], hinv2, hun2⟩
  | opaqueBlob size =>
    have := getBytes_spec s v rest h hu
    rw [show List.length v = size from hv] at this
    exact this

theorem checkPairwise_self {α : Type} (f : α → α → List Mismatch) (xs : List α)
    (hf : ∀ x ∈ xs, f x x = []) : checkPairwise f xs xs = [] := by
  induction xs with
  | nil => rfl
  | cons x xs ih =>
    simp only [checkPairwise, hf x (List.mem_cons_self x xs), List.nil_append]
    exact ih (fun y hy => hf y (List.mem_cons_of_mem x hy))

/-- The equality checker reports nothing on a value and itself. -/
theorem checkEqual_self (sh : Shape) (v : Val sh) : checkEqual sh v v = [] := by
  induction sh with
  | scalar width => simp [checkEqual]
  | fixedArray n elem ih => exact checkPairwise_self _ v (fun x _ => ih x)
  | structNil => rfl
  | structCons field rest ihf ihr => simp [checkEqual, ihf v.1, ihr v.2]
  | optionalPointer target ih =>
    cases v with
    | none => rfl
    | some x => exact ih x
  | countedArray elem ih =>
    simp only [checkEqual, if_true, List.nil_append]
    exact checkPairwise_self _ v (fun x _ => ih x)
  | opaqueBlob size => simp [checkEqual]

/-- The payload the marshal function of a shape emits for a value is its wire format. -/
theorem unread_marshal_fresh (sh : Shape) (v : Val sh) :
    unread (marshal sh fresh v) = encode sh v := by
  rw [(marshal_spec sh v fresh Inv_fresh).2, unread_fresh, List.nil_append]

theorem encodeList_congr {α : Type} (f g : α → List Byte) (xs : List α)
    (h : ∀ x ∈ xs, f x = g x) : encodeList f xs = encodeList g xs := by
  induction xs with
  | nil => rfl
  | cons x xs ih =>
    simp only [encodeList, h x (List.mem_cons_self x xs)]
    rw [ih (fun y hy => h y (List.mem_cons_of_mem x hy))]

theorem encodeList_length {α : Type} (f : α → List Byte) (xs : List α) (k : Nat)
    (h : ∀ x ∈ xs, (f x).length = k) : (encodeList f xs).length = k * xs.length := by
  induction xs with
  | nil => rfl
  | cons x xs ih =>
    simp only [encodeList, List.length_append, List.length_cons,
      h x (List.mem_cons_self x xs), ih (fun y hy => h y (List.mem_cons_of_mem x hy))]
    rw [Nat.mul_succ, Nat.add_comm]

/-- Marshaling a legal value into a cleared stream and unmarshaling it gives the value
back and clears the stream. -/
theorem unmarshal_marshal_fresh (sh : Shape) (v : Val sh) (hv : Legal sh v) :
    unmarshal sh (marshal sh fresh v) = some (v, fresh) := by
  obtain ⟨hinv, hun⟩ := marshal_spec sh v fresh Inv_fresh
  obtain ⟨s', hget, hinv', hrest⟩ := unmarshal_spec sh v hv (marshal sh fresh v) [] hinv
    (by rw [hun, unread_fresh, List.nil_append, List.append_nil])
  rw [hget, eq_fresh_of_unread_nil s' hinv' hrest]

/-! ## The claims on the codec -/

/-- C11.  For every shape built from scalars, fixed arrays, nested structs, optional
pointers, counted arrays and opaque blobs, and every legal value `v` of it: marshaling
`v` into an empty channel puts the wire format of `v` there; unmarshaling with the
function of the same shape yields a value on which the equality checker reports no
mismatch against `v`, and leaves the channel empty; and when further bytes `t` were
written after `v`, unmarshaling leaves exactly `t` unread. -/
theorem round_trip (sh : Shape) (v : Val sh) (hv : Legal sh v) :
    unread (marshal sh fresh v) = encode sh v ∧
    (∃ v', unmarshal sh (marshal sh fresh v) = some (v', fresh) ∧
      checkEqual sh v v' = []) ∧
    ∀ t : List Byte, ∃ v' s', unmarshal sh (write (marshal sh fresh v) t).stream
        = some (v', s') ∧ checkEqual sh v v' = [] ∧ unread s' = t := by
  refine ⟨unread_marshal_fresh sh v,
    ⟨v, unmarshal_marshal_fresh sh v hv, checkEqual_self sh v⟩, fun t => ?_⟩
  obtain ⟨hinv, hun⟩ := marshal_spec sh v fresh Inv_fresh
  obtain ⟨hinv1, hun1⟩ := putBytes_spec (marshal sh fresh v) t hinv
  obtain ⟨s', hget, _, hrest⟩ := unmarshal_spec sh v hv _ t hinv1
    (by rw [hun1, hun, unread_fresh, List.nil_append])
  exact ⟨v, s', hget, checkEqual_self sh v, hrest⟩

theorem round_trip_witness :
    Legal sampleShape sampleValue ∧
    (unread (marshal sampleShape fresh sampleValue) = encode sampleShape sampleValue ∧
     (∃ v', unmarshal sampleShape (marshal sampleShape fresh sampleValue)
          = some (v', fresh) ∧
        checkEqual sampleShape sampleValue v' = []) ∧
     ∀ t : List Byte, ∃ v' s',
        unmarshal sampleShape (write (marshal sampleShape fresh sampleValue) t).stream
          = some (v', s') ∧
        checkEqual sampleShape sampleValue v' = [] ∧ unread s' = t) :=
  ⟨by simp [Legal, sampleValue],
   round_trip sampleShape sampleValue (by simp [Legal, sampleValue])⟩

/-- C12.  For every 32-bit unsigned `v`, `putBe32(v)` on an empty channel followed by
`getBe32()` returns `v` and leaves the channel empty. -/
theorem putBe32_getBe32 (v : Nat) (hv : v < 2 ^ 32) :
    getBe32 (putBe32 fresh v) = some (v, fresh) :=
  unmarshal_marshal_fresh (Shape.scalar 4) v (by simpa [Legal] using hv)

theorem putBe32_getBe32_witness :
    (6 : Nat) < 2 ^ 32 ∧ getBe32 (putBe32 fresh 6) = some (6, fresh) :=
  ⟨by decide, putBe32_getBe32 6 (by decide)⟩

/-- C13.  For every byte string `str` shorter than `2^32` (the empty one included) and
every span `t`: after `putString(str)` and `write(t)` on an empty channel the unread
content is the four length bytes, `str` and `t`; `getString()` returns exactly `str`
and leaves exactly `t` unread, so it consumed `4 + len(str)` bytes; and the
`read(len(t))` that follows returns exactly `t`. -/
theorem putString_getString (str t : List Byte) (h : str.length < 2 ^ 32) :
    unread (write (putString fresh str) t).stream = beBytes 4 str.length ++ str ++ t ∧
    ∃ s', getString (write (putString fresh str) t).stream = some (str, s') ∧
      unread s' = t ∧
      (unread (write (putString fresh str) t).stream).length
        = 4 + str.length + (unread s').length ∧
      (read s' t.length).expectFailed = false ∧
      (read s' t.length).data = some t := by
  obtain ⟨h1, hu1⟩ := putBe_spec 4 fresh str.length Inv_fresh
  obtain ⟨h2, hu2⟩ := putBytes_spec _ str h1
  obtain ⟨h3, hu3⟩ := putBytes_spec _ t h2
  have hall : unread (write (putString fresh str) t).stream
      = beBytes 4 str.length ++ (str ++ t) := by
    have : unread (write (putString fresh str) t).stream
        = unread fresh ++ beBytes 4 str.length ++ str ++ t := by
      rw [← hu1, ← hu2, ← hu3]; rfl
    rw [this, unread_fresh, List.nil_append, List.append_assoc]
  obtain ⟨s1, hget, hinv1, hun1⟩ := getBe_spec 4 _ str.length (str ++ t) h3 hall
  rw [Nat.mod_eq_of_lt (by simpa using h)] at hget
  obtain ⟨s2, hstr, hinv2, hun2⟩ := getBytes_spec s1 str t hinv1 hun1
  obtain ⟨s3, ht, _, _⟩ := getBytes_spec s2 t [] hinv2 (by rw [hun2, List.append_nil])
  refine ⟨by rw [hall, List.append_assoc], s2, ?_, hun2, ?_, ?_, ?_⟩
  · have hget' : getBe32 (write (putString fresh str) t).stream
        = some (str.length, s1) := hget
    simp only [getString, hget', hstr]
  · rw [hall, hun2]; simp [beBytes_length]; omega
  · have hlen : (unread s2).length = s2.mWriteCursor - s2.mReadCursor := by
      rw [unread_eq_drop s2 hinv2.1.1, List.length_drop, hinv2.1.1]
    rw [hun2] at hlen
    have hle := hinv2.2
    have hb := hinv2.1.1
    simp only [read, Bool.not_eq_false', decide_eq_true_eq]
    omega
  · simp only [getBytes] at ht
    split at ht
    · rename_i d hd
      rw [hd]
      simp only [Option.some.injEq, Prod.mk.injEq] at ht
      rw [ht.1]
    · exact absurd ht (by simp)

theorem putString_getString_witness :
    ([72, 105] : List Byte).length < 2 ^ 32 ∧
    (unread (write (putString fresh [72, 105]) [9]).stream
        = beBytes 4 ([72, 105] : List Byte).length ++ [72, 105] ++ [9] ∧
     ∃ s', getString (write (putString fresh [72, 105]) [9]).stream
          = some ([72, 105], s') ∧
       unread s' = [9] ∧
       (unread (write (putString fresh [72, 105]) [9]).stream).length
         = 4 + ([72, 105] : List Byte).length + (unread s').length ∧
       (read s' ([9] : List Byte).length).expectFailed = false ∧
       (read s' ([9] : List Byte).length).data = some [9]) :=
  ⟨by decide, putString_getString [72, 105] [9] (by decide)⟩

/-- C14.  For every `v`, `putBe32(v)` is one `write` of the four bytes
`(v / 2^24) mod 256`, `(v / 2^16) mod 256`, `(v / 2^8) mod 256`, `v mod 256`, and on a
channel reached by writes and non-underflowing reads it appends exactly these four
bytes, in this order, to the unread content; `putBe32(6)` on an empty channel leaves
`00 00 00 06`. -/
theorem putBe32_bytes (s : VulkanStreamForTesting) (v : Nat) (h : ReachableOk s) :
    putBe32 s v
      = (write s [byteOf (v / 2 ^ 24), byteOf (v / 2 ^ 16), byteOf (v / 2 ^ 8),
          byteOf v]).stream ∧
    (unread (putBe32 s v)).map Fin.val
      = (unread s).map Fin.val
        ++ [v / 2 ^ 24 % 256, v / 2 ^ 16 % 256, v / 2 ^ 8 % 256, v % 256] ∧
    unread (putBe32 fresh 6) = [0, 0, 0, 6] := by
  refine ⟨?_, ?_, by decide⟩
  · simp only [putBe32, putBe, putBytes, beBytes_four]
  · have := (putBe_spec 4 s v (Inv_of_reachableOk s h)).2
    simp only [putBe32]
    rw [this, beBytes_four, List.map_append]
    rfl

theorem putBe32_bytes_witness :
    ReachableOk (run fresh [Op.write [1, 2], Op.read 1]) ∧
    (putBe32 (run fresh [Op.write [1, 2], Op.read 1]) 16909060
      = (write (run fresh [Op.write [1, 2], Op.read 1])
          [byteOf (16909060 / 2 ^ 24), byteOf (16909060 / 2 ^ 16),
           byteOf (16909060 / 2 ^ 8), byteOf 16909060]).stream ∧
     (unread (putBe32 (run fresh [Op.write [1, 2], Op.read 1]) 16909060)).map Fin.val
      = (unread (run fresh [Op.write [1, 2], Op.read 1])).map Fin.val
        ++ [16909060 / 2 ^ 24 % 256, 16909060 / 2 ^ 16 % 256, 16909060 / 2 ^ 8 % 256,
            16909060 % 256] ∧
     unread (putBe32 fresh 6) = [0, 0, 0, 6]) :=
  ⟨⟨_, by decide, rfl⟩, putBe32_bytes _ 16909060 ⟨_, by decide, rfl⟩⟩

/-- C15.  For every byte string `str` shorter than `2^32`, `putString(str)` on a channel
reached by writes and non-underflowing reads appends exactly `4 + len(str)` bytes: the
four big-endian bytes of `len(str)`, which decode to `len(str)`, then the bytes of `str`
and nothing else; the empty string is encoded as `00 00 00 00`. -/
theorem putString_bytes (s : VulkanStreamForTesting) (str : List Byte) (h : ReachableOk s)
    (hlen : str.length < 2 ^ 32) :
    unread (putString s str) = unread s ++ (beBytes 4 str.length ++ str) ∧
    (beBytes 4 str.length).map Fin.val
      = [str.length / 2 ^ 24 % 256, str.length / 2 ^ 16 % 256, str.length / 2 ^ 8 % 256,
          str.length % 256] ∧
    beValue (beBytes 4 str.length) = str.length ∧
    (unread (putString s str)).length = (unread s).length + (4 + str.length) ∧
    unread (putString fresh []) = [0, 0, 0, 0] := by
  obtain ⟨h1, hu1⟩ := putBe_spec 4 s str.length (Inv_of_reachableOk s h)
  obtain ⟨_, hu2⟩ := putBytes_spec _ str h1
  have hall : unread (putString s str) = unread s ++ (beBytes 4 str.length ++ str) := by
    simp only [putString, putBe32]
    rw [hu2, hu1, List.append_assoc]
  refine ⟨hall, by rw [beBytes_four]; rfl, ?_, ?_, by decide⟩
  · rw [beValue_beBytes]
    exact Nat.mod_eq_of_lt (by simpa using hlen)
  · rw [hall]
    simp [beBytes_length]

theorem putString_bytes_witness :
    ReachableOk (run fresh [Op.write [1, 2], Op.read 1]) ∧
    ([72, 105] : List Byte).length < 2 ^ 32 ∧
    (unread (putString (run fresh [Op.write [1, 2], Op.read 1]) [72, 105])
        = unread (run fresh [Op.write [1, 2], Op.read 1])
          ++ (beBytes 4 ([72, 105] : List Byte).length ++ [72, 105]) ∧
     (beBytes 4 ([72, 105] : List Byte).length).map Fin.val
        = [([72, 105] : List Byte).length / 2 ^ 24 % 256,
           ([72, 105] : List Byte).length / 2 ^ 16 % 256,
           ([72, 105] : List Byte).length / 2 ^ 8 % 256,
           ([72, 105] : List Byte).length % 256] ∧
     beValue (beBytes 4 ([72, 105] : List Byte).length) = ([72, 105] : List Byte).length ∧
     (unread (putString (run fresh [Op.write [1, 2], Op.read 1]) [72, 105])).length
        = (unread (run fresh [Op.write [1, 2], Op.read 1])).length
          + (4 + ([72, 105] : List Byte).length) ∧
     unread (putString fresh []) = [0, 0, 0, 0]) :=
  ⟨⟨_, by decide, rfl⟩, by decide,
   putString_bytes _ [72, 105] ⟨_, by decide, rfl⟩ (by decide)⟩

/-- C16.  A counted array with count 0 marshals, whatever the element type, to exactly
the four bytes `00 00 00 00`; unmarshaling a channel that holds only these four bytes
yields the empty array and the empty channel whatever the element unmarshal function
`g` is, one that always fails included, so no element is read. -/
theorem counted_array_empty (elem : Shape) (α : Type)
    (f : VulkanStreamForTesting → α → VulkanStreamForTesting)
    (g : VulkanStreamForTesting → Option (α × VulkanStreamForTesting)) :
    unread (marshal (Shape.countedArray elem) fresh []) = [0, 0, 0, 0] ∧
    unmarshal (Shape.countedArray elem) (marshal (Shape.countedArray elem) fresh [])
      = some ([], fresh) ∧
    unread (marshalCounted f fresh []) = [0, 0, 0, 0] ∧
    unmarshalCounted g (marshalCounted f fresh []) = some ([], fresh) ∧
    unmarshalCounted (fun _ => (none : Option (α × VulkanStreamForTesting)))
      (run fresh [Op.write [0, 0, 0, 0]]) = some ([], fresh) := by
  have h0 : unread (putBe32 fresh 0) = [0, 0, 0, 0] := by decide
  refine ⟨h0, ?_, h0, ?_, ?_⟩
  · have h1 : marshal (Shape.countedArray elem) fresh [] = putBe32 fresh 0 := rfl
    have h2 : getBe32 (putBe32 fresh 0) = some (0, fresh) := by decide
    simp only [unmarshal, unmarshalCounted, h1, h2, unmarshalList]
  · have h1 : marshalCounted f fresh [] = putBe32 fresh 0 := rfl
    have h2 : getBe32 (putBe32 fresh 0) = some (0, fresh) := by decide
    simp only [unmarshalCounted, h1, h2, unmarshalList]
  · have h1 : run fresh [Op.write [0, 0, 0, 0]] = putBe32 fresh 0 := by decide
    have h2 : getBe32 (putBe32 fresh 0) = some (0, fresh) := by decide
    simp only [unmarshalCounted, h1, h2, unmarshalList]

/-- C17.  For every counted array `xs` of `n < 2^32` legal elements, marshal emits the
four big-endian bytes of `n`, which decode to `n`, followed by the payloads the element
marshal function emits for the elements, in index order; unmarshaling that output
yields an array of the same count whose element at every index `i < n` is the original
element `i`, and leaves the channel empty. -/
theorem counted_array_round_trip (elem : Shape) (xs : List (Val elem))
    (h : Legal (Shape.countedArray elem) xs) :
    unread (marshal (Shape.countedArray elem) fresh xs)
      = beBytes 4 xs.length ++ encodeList (fun x => unread (marshal elem fresh x)) xs ∧
    beValue (beBytes 4 xs.length) = xs.length ∧
    ∃ ys : List (Val elem),
      unmarshal (Shape.countedArray elem) (marshal (Shape.countedArray elem) fresh xs)
        = some (ys, fresh) ∧
      ys.length = xs.length ∧ ∀ i, i < xs.length → ys[i]? = xs[i]? := by
  refine ⟨?_, ?_, xs, unmarshal_marshal_fresh (Shape.countedArray elem) xs h, rfl,
    fun _ _ => rfl⟩
  · rw [unread_marshal_fresh]
    simp only [encode]
    rw [encodeList_congr _ (encode elem) xs (fun x _ => unread_marshal_fresh elem x)]
  · rw [beValue_beBytes]
    exact Nat.mod_eq_of_lt (by simpa using h.1)

theorem counted_array_round_trip_witness :
    Legal (Shape.countedArray (Shape.scalar 2)) [258, 3] ∧
    (unread (marshal (Shape.countedArray (Shape.scalar 2)) fresh [258, 3])
      = beBytes 4 ([258, 3] : List Nat).length
        ++ encodeList (fun x => unread (marshal (Shape.scalar 2) fresh x)) [258, 3] ∧
     beValue (beBytes 4 ([258, 3] : List Nat).length) = ([258, 3] : List Nat).length ∧
     ∃ ys : List (Val (Shape.scalar 2)),
      unmarshal (Shape.countedArray (Shape.scalar 2))
          (marshal (Shape.countedArray (Shape.scalar 2)) fresh [258, 3])
        = some (ys, fresh) ∧
      ys.length = ([258, 3] : List Nat).length ∧
      ∀ i, i < ([258, 3] : List Nat).length → ys[i]? = ([258, 3] : List Nat)[i]?) :=
  ⟨by simp [Legal],
   counted_array_round_trip (Shape.scalar 2) [258, 3] (by simp [Legal])⟩

/-- C18.  For every size `n` and every blob of `n` bytes, marshaling the blob emits
exactly those `n` bytes, without a length prefix, and unmarshaling at the
caller-provided size `n` yields exactly the original bytes and leaves the channel
empty; so for the all-zero and the all-`0xFF` blob of every size, size 0 included. -/
theorem blob_round_trip (n : Nat) (b : List Byte) (h : b.length = n) :
    unread (marshal (Shape.opaqueBlob n) fresh b) = b ∧
    (unread (marshal (Shape.opaqueBlob n) fresh b)).length = n ∧
    unmarshal (Shape.opaqueBlob n) (marshal (Shape.opaqueBlob n) fresh b)
      = some (b, fresh) ∧
    unmarshal (Shape.opaqueBlob n) (marshal (Shape.opaqueBlob n) fresh (List.replicate n 0))
      = some (List.replicate n 0, fresh) ∧
    unmarshal (Shape.opaqueBlob n)
        (marshal (Shape.opaqueBlob n) fresh (List.replicate n 255))
      = some (List.replicate n 255, fresh) := by
  have hb := unread_marshal_fresh (Shape.opaqueBlob n) b
  simp only [encode] at hb
  refine ⟨hb, by rw [hb, h], unmarshal_marshal_fresh (Shape.opaqueBlob n) b h,
    unmarshal_marshal_fresh (Shape.opaqueBlob n) (List.replicate n 0) ?_,
    unmarshal_marshal_fresh (Shape.opaqueBlob n) (List.replicate n 255) ?_⟩
  · exact List.length_replicate n 0
  · exact List.length_replicate n 255

theorem blob_round_trip_witness :
    ([0, 255, 7] : List Byte).length = 3 ∧
    (unread (marshal (Shape.opaqueBlob 3) fresh [0, 255, 7]) = [0, 255, 7] ∧
     (unread (marshal (Shape.opaqueBlob 3) fresh [0, 255, 7])).length = 3 ∧
     unmarshal (Shape.opaqueBlob 3) (marshal (Shape.opaqueBlob 3) fresh [0, 255, 7])
       = some ([0, 255, 7], fresh) ∧
     unmarshal (Shape.opaqueBlob 3)
         (marshal (Shape.opaqueBlob 3) fresh (List.replicate 3 0))
       = some (List.replicate 3 0, fresh) ∧
     unmarshal (Shape.opaqueBlob 3)
         (marshal (Shape.opaqueBlob 3) fresh (List.replicate 3 255))
       = some (List.replicate 3 255, fresh)) :=
  ⟨by decide, blob_round_trip 3 [0, 255, 7] (by decide)⟩

/-- C19.  For an optional pointer to any shape: an absent pointer marshals to exactly the
one byte `00`; a present pointer marshals to one nonzero flag byte followed by the
marshal output of the nested value; on a channel whose unread content starts with the
flag byte `f`, unmarshal reads that byte, and whenever it yields a destination, the
destination is present exactly when `f` is nonzero, nothing more being read when `f` is
zero; and a legal value comes back from a round trip as it was, present or absent. -/
theorem optional_pointer (target : Shape) :
    unread (marshal (Shape.optionalPointer target) fresh none) = [0] ∧
    (∀ x : Val target, ∃ flag : Byte, flag ≠ 0 ∧
      unread (marshal (Shape.optionalPointer target) fresh (some x))
        = flag :: unread (marshal target fresh x)) ∧
    (∀ (s : VulkanStreamForTesting) (f : Byte) (rest : List Byte),
      ReachableOk s → unread s = f :: rest →
      (f = 0 → ∃ s', unmarshal (Shape.optionalPointer target) s = some (none, s') ∧
        unread s' = rest) ∧
      ∀ r, unmarshal (Shape.optionalPointer target) s = some r →
        (r.1.isSome = true ↔ f ≠ 0)) ∧
    (∀ v : Val (Shape.optionalPointer target), Legal (Shape.optionalPointer target) v →
      unmarshal (Shape.optionalPointer target)
        (marshal (Shape.optionalPointer target) fresh v) = some (v, fresh)) := by
  have h0 : unread (putBe 1 fresh 0) = [0] := by decide
  refine ⟨h0, fun x => ⟨1, by decide, ?_⟩, fun s f rest hs hu => ?_,
    fun v hv => unmarshal_marshal_fresh _ v hv⟩
  · rw [unread_marshal_fresh, unread_marshal_fresh]
    rfl
  · obtain ⟨s1, hget, _, hrest⟩ :=
      getBytes_spec s [f] rest (Inv_of_reachableOk s hs) (by rw [hu]; rfl)
    have hflag : getBe 1 s = some (f.val, s1) := by
      simp only [List.length_singleton] at hget
      simp [getBe, hget, beValue]
    constructor
    · intro hf
      exact ⟨s1, by simp [unmarshal, unmarshalOptional, hflag, hf], hrest⟩
    · intro r hr
      simp only [unmarshal, unmarshalOptional, hflag] at hr
      by_cases hz : f = 0
      · subst hz
        simp only [Fin.val_zero, if_true, Option.some.injEq] at hr
        rw [← hr]
        simp
      · have hv : f.val ≠ 0 := fun h0 => hz (Fin.ext h0)
        simp only [if_neg hv] at hr
        split at hr
        · exact absurd hr (by simp)
        · simp only [Option.some.injEq] at hr
          rw [← hr]
          simp [hz]

/-- C20.  For every fixed array of `n` elements, marshal emits exactly the payloads the
element marshal function emits for the elements, in index order, with no count before
them; when every element payload has `k` bytes the output has `k * n` bytes, so a fixed
array of `n` 32-bit integers marshals to exactly `4 * n` bytes. -/
theorem fixed_array_flat (n : Nat) (elem : Shape) (xs : List (Val elem))
    (h : xs.length = n) :
    unread (marshal (Shape.fixedArray n elem) fresh xs)
      = encodeList (fun x => unread (marshal elem fresh x)) xs ∧
    (∀ k, (∀ x ∈ xs, (unread (marshal elem fresh x)).length = k) →
      (unread (marshal (Shape.fixedArray n elem) fresh xs)).length = k * n) ∧
    ∀ ys : List Nat, ys.length = n →
      (unread (marshal (Shape.fixedArray n (Shape.scalar 4)) fresh ys)).length = 4 * n := by
  have hflat : ∀ (e : Shape) (zs : List (Val e)),
      unread (marshal (Shape.fixedArray n e) fresh zs)
        = encodeList (fun x => unread (marshal e fresh x)) zs := by
    intro e zs
    rw [unread_marshal_fresh]
    simp only [encode]
    rw [encodeList_congr _ (encode e) zs (fun x _ => unread_marshal_fresh e x)]
  refine ⟨hflat elem xs, fun k hk => ?_, fun ys hys => ?_⟩
  · rw [hflat elem xs, encodeList_length _ xs k hk, h]
  · rw [hflat (Shape.scalar 4) ys, encodeList_length _ ys 4 ?_, hys]
    intro x _
    rw [unread_marshal_fresh]
    exact beBytes_length 4 x

theorem fixed_array_flat_witness :
    ([1, 2, 3] : List Nat).length = 3 ∧
    (unread (marshal (Shape.fixedArray 3 (Shape.scalar 4)) fresh [1, 2, 3])
      = encodeList (fun x => unread (marshal (Shape.scalar 4) fresh x)) [1, 2, 3] ∧
     (∀ k, (∀ x ∈ ([1, 2, 3] : List Nat),
          (unread (marshal (Shape.scalar 4) fresh x)).length = k) →
      (unread (marshal (Shape.fixedArray 3 (Shape.scalar 4)) fresh [1, 2, 3])).length
        = k * 3) ∧
     ∀ ys : List Nat, ys.length = 3 →
      (unread (marshal (Shape.fixedArray 3 (Shape.scalar 4)) fresh ys)).length = 4 * 3) :=
  ⟨by decide, fixed_array_flat 3 (Shape.scalar 4) [1, 2, 3] (by decide)⟩

theorem optional_pointer_witness :
    ReachableOk (run fresh [Op.write [2, 9]]) ∧
    unread (run fresh [Op.write [2, 9]]) = 2 :: [9] ∧
    unmarshal (Shape.optionalPointer (Shape.scalar 1)) (run fresh [Op.write [2, 9]])
      = some (some 9, fresh) ∧
    ((some (9 : Nat)).isSome = true ↔ (2 : Byte) ≠ 0) :=
  ⟨⟨_, by decide, rfl⟩, by decide, by decide,
   ((optional_pointer (Shape.scalar 1)).2.2.1 (run fresh [Op.write [2, 9]]) 2 [9]
      ⟨_, by decide, rfl⟩ (by decide)).2 (some 9, fresh) (by decide)⟩

/-! ## The equality checker -/

theorem checkPairwise_nil_eq {α : Type} (f : α → α → List Mismatch) (xs ys : List α)
    (hlen : xs.length = ys.length)
    (hf : ∀ x ∈ xs, ∀ y ∈ ys, f x y = [] → x = y)
    (h : checkPairwise f xs ys = []) : xs = ys := by
  induction xs generalizing ys with
  | nil =>
    cases ys with
    | nil => rfl
    | cons y ys => simp at hlen
  | cons x xs ih =>
    cases ys with
    | nil => simp at hlen
    | cons y ys =>
      simp only [checkPairwise, List.append_eq_nil] at h
      have hxy := hf x (List.mem_cons_self x xs) y (List.mem_cons_self y ys) h.1
      have hrest := ih ys (by simpa using hlen)
        (fun a ha b hb => hf a (List.mem_cons_of_mem x ha) b (List.mem_cons_of_mem y hb)) h.2
      rw [hxy, hrest]

/-- Two legal values of a shape on which the checker reports nothing are equal. -/
theorem eq_of_checkEqual_nil (sh : Shape) (v v' : Val sh) (hv : Legal sh v)
    (hv' : Legal sh v') (h : checkEqual sh v v' = []) : v = v' := by
  induction sh with
  | scalar width =>
    simp only [checkEqual] at h
    split at h
    · assumption
    · exact absurd h (by simp)
  | fixedArray n elem ih =>
    exact checkPairwise_nil_eq _ v v' (by rw [hv.1, hv'.1])
      (fun x hx y hy hxy => ih x y (hv.2 x hx) (hv'.2 y hy) hxy) h
  | structNil => rfl
  | structCons field rest ihf ihr =>
    simp only [checkEqual, List.append_eq_nil] at h
    exact Prod.ext (ihf v.1 v'.1 hv.1 hv'.1 h.1) (ihr v.2 v'.2 hv.2 hv'.2 h.2)
  | optionalPointer target ih =>
    cases v with
    | none =>
      cases v' with
      | none => rfl
      | some y => simp [checkEqual] at h
    | some x =>
      cases v' with
      | none => simp [checkEqual] at h
      | some y => rw [ih x y hv hv' h]
  | countedArray elem ih =>
    simp only [checkEqual, List.append_eq_nil] at h
    have hlen : List.length v = List.length v' := by
      by_contra hne
      rw [if_neg hne] at h
      exact absurd h.1 (by simp)
    exact checkPairwise_nil_eq _ v v' hlen
      (fun x hx y hy hxy => ih x y (hv.2 x hx) (hv'.2 y hy) hxy) h.2
  | opaqueBlob size =>
    have h1 : List.length v = size := hv
    have h2 : List.length v' = size := hv'
    simp only [checkEqual, h1, h2, Nat.min_self] at h
    split at h
    · rename_i heq
      rw [← h1, List.take_length] at heq
      rw [heq, h1, ← h2, List.take_length]
    · exact absurd h (by simp)

theorem checkPairwise_length {α : Type} (f : α → α → List Mismatch) (g : α → α → Nat)
    (xs ys : List α) (h : ∀ x ∈ xs, ∀ y ∈ ys, (f x y).length = g x y) :
    (checkPairwise f xs ys).length = countPairwise g xs ys := by
  induction xs generalizing ys with
  | nil => simp [checkPairwise, countPairwise]
  | cons x xs ih =>
    cases ys with
    | nil => simp [checkPairwise, countPairwise]
    | cons y ys =>
      simp only [checkPairwise, countPairwise, List.length_append]
      rw [h x (List.mem_cons_self x xs) y (List.mem_cons_self y ys),
        ih ys (fun a ha b hb =>
          h a (List.mem_cons_of_mem x ha) b (List.mem_cons_of_mem y hb))]

/-- The checker makes one callback invocation for each mismatching field. -/
theorem checkEqual_length (sh : Shape) (a b : Val sh) :
    (checkEqual sh a b).length = mismatchingFields sh a b := by
  induction sh with
  | scalar width =>
    simp only [checkEqual, mismatchingFields]
    split <;> rfl
  | fixedArray n elem ih =>
    exact checkPairwise_length _ _ a b (fun x _ y _ => ih x y)
  | structNil => rfl
  | structCons field rest ihf ihr =>
    simp only [checkEqual, mismatchingFields, List.length_append, ihf, ihr]
  | optionalPointer target ih =>
    cases a with
    | none =>
      cases b with
      | none => rfl
      | some y => rfl
    | some x =>
      cases b with
      | none => rfl
      | some y => exact ih x y
  | countedArray elem ih =>
    simp only [checkEqual, mismatchingFields, List.length_append]
    rw [checkPairwise_length _ _ a b (fun x _ y _ => ih x y)]
    split <;> rfl
  | opaqueBlob size =>
    simp only [checkEqual, mismatchingFields]
    split <;> rfl

theorem scalarStruct_mismatching (widths xs ys : List Nat)
    (hx : xs.length = widths.length) (hy : ys.length = widths.length) :
    mismatchingFields (scalarStruct widths) (scalarStructValue widths xs)
      (scalarStructValue widths ys) = differing xs ys := by
  induction widths generalizing xs ys with
  | nil =>
    cases xs with
    | nil => rfl
    | cons x xs => simp at hx
  | cons w ws ih =>
    cases xs with
    | nil => simp at hx
    | cons x xs =>
      cases ys with
      | nil => simp at hy
      | cons y ys =>
        simp only [scalarStruct, scalarStructValue, mismatchingFields, differing,
          List.headD_cons, List.tail_cons]
        rw [ih xs ys (by simpa using hx) (by simpa using hy)]

theorem checkPairwise_take {α : Type} (f : α → α → List Mismatch) (xs ys : List α) :
    checkPairwise f xs ys
      = checkPairwise f (xs.take (min xs.length ys.length))
          (ys.take (min xs.length ys.length)) := by
  induction xs generalizing ys with
  | nil => simp [checkPairwise]
  | cons x xs ih =>
    cases ys with
    | nil => simp [checkPairwise]
    | cons y ys =>
      simp only [List.length_cons, Nat.succ_min_succ, List.take_succ_cons, checkPairwise]
      rw [← ih ys]

/-! ## The claims on the equality checker -/

/-- C21.  For every two legal values `v` and `v'` of the same shape that differ (in a
scalar, in the presence of an optional pointer, in the count of a counted array, in an
array element or in a blob byte, at any depth), the equality checker invokes the
mismatch callback at least once. -/
theorem checkEqual_detects (sh : Shape) (v v' : Val sh) (hv : Legal sh v)
    (hv' : Legal sh v') (hne : v ≠ v') : 0 < (checkEqual sh v v').length := by
  apply List.length_pos.2
  intro h
  exact hne (eq_of_checkEqual_nil sh v v' hv hv' h)

theorem checkEqual_detects_witness :
    Legal sampleShape sampleValue ∧ Legal sampleShape sampleOther ∧
    sampleValue ≠ sampleOther ∧
    0 < (checkEqual sampleShape sampleValue sampleOther).length :=
  ⟨by simp [Legal, sampleValue], by simp [Legal, sampleOther],
   by simp [sampleValue, sampleOther],
   checkEqual_detects sampleShape sampleValue sampleOther (by simp [Legal, sampleValue])
     (by simp [Legal, sampleOther]) (by simp [sampleValue, sampleOther])⟩

/-- C22.  For every pair of values of a shape the number of callback invocations is the
number of mismatching fields the full walk finds; the invocations for a struct are
those for its first field followed by those for the rest, so the walk does not stop at
a mismatch; two structs of scalars that differ in exactly `k` fields produce exactly
`k` invocations; and a value compared with itself produces none. -/
theorem checkEqual_counts (sh : Shape) (a b : Val sh) (widths xs ys : List Nat)
    (hx : xs.length = widths.length) (hy : ys.length = widths.length) :
    (checkEqual sh a b).length = mismatchingFields sh a b ∧
    (∀ (field rest : Shape) (p q : Val (Shape.structCons field rest)),
      checkEqual (Shape.structCons field rest) p q
        = checkEqual field p.1 q.1 ++ checkEqual rest p.2 q.2) ∧
    (checkEqual (scalarStruct widths) (scalarStructValue widths xs)
      (scalarStructValue widths ys)).length = differing xs ys ∧
    checkEqual sh a a = [] := by
  refine ⟨checkEqual_length sh a b, fun _ _ _ _ => rfl, ?_, checkEqual_self sh a⟩
  rw [checkEqual_length, scalarStruct_mismatching widths xs ys hx hy]

theorem checkEqual_counts_witness :
    ([1, 2, 3] : List Nat).length = ([4, 4, 1] : List Nat).length ∧
    ([1, 5, 6] : List Nat).length = ([4, 4, 1] : List Nat).length ∧
    (checkEqual (scalarStruct [4, 4, 1]) (scalarStructValue [4, 4, 1] [1, 2, 3])
      (scalarStructValue [4, 4, 1] [1, 5, 6])).length = differing [1, 2, 3] [1, 5, 6] ∧
    differing [1, 2, 3] [1, 5, 6] = 2 ∧
    (checkEqual sampleShape sampleValue sampleOther).length
      = mismatchingFields sampleShape sampleValue sampleOther :=
  ⟨by decide, by decide,
   (checkEqual_counts sampleShape sampleValue sampleOther [4, 4, 1] [1, 2, 3] [1, 5, 6]
      (by decide) (by decide)).2.2.1,
   by decide,
   (checkEqual_counts sampleShape sampleValue sampleOther [4, 4, 1] [1, 2, 3] [1, 5, 6]
      (by decide) (by decide)).1⟩

/-- C23.  Comparing two counted arrays, the checker reports a count mismatch when the
counts differ, and its element comparisons are those of the two arrays cut at the
shorter of the two counts, so no element at or past the shorter length is compared.
Comparing two blobs, the result is that for the blobs cut at the smaller of the two
sizes, and it is empty exactly when the bytes agree over that size. -/
theorem checkEqual_shorter (elem : Shape) (a b : List (Val elem)) (n : Nat)
    (x y : List Byte) :
    (a.length ≠ b.length → Mismatch.count ∈ checkEqual (Shape.countedArray elem) a b) ∧
    checkEqual (Shape.countedArray elem) a b
      = (if a.length = b.length then [] else [Mismatch.count])
        ++ checkPairwise (checkEqual elem) (a.take (min a.length b.length))
            (b.take (min a.length b.length)) ∧
    checkEqual (Shape.opaqueBlob n) x y
      = checkEqual (Shape.opaqueBlob n) (x.take (min x.length y.length))
          (y.take (min x.length y.length)) ∧
    (checkEqual (Shape.opaqueBlob n) x y = [] ↔
      x.take (min x.length y.length) = y.take (min x.length y.length)) := by
  refine ⟨fun hne => ?_, ?_, ?_, ?_⟩
  · simp only [checkEqual, if_neg hne]
    simp
  · simp only [checkEqual]
    rw [← checkPairwise_take]
  · have hx : (x.take (min x.length y.length)).length = min x.length y.length := by
      rw [List.length_take]; omega
    have hy : (y.take (min x.length y.length)).length = min x.length y.length := by
      rw [List.length_take]; omega
    simp only [checkEqual, hx, hy, Nat.min_self, List.take_take]
  · simp only [checkEqual]
    split
    · rename_i heq; simp [heq]
    · rename_i hne; simp [hne]

theorem checkEqual_shorter_witness :
    ([1, 2, 3] : List Nat).length ≠ ([1, 9] : List Nat).length ∧
    Mismatch.count ∈ checkEqual (Shape.countedArray (Shape.scalar 1)) [1, 2, 3] [1, 9] ∧
    checkEqual (Shape.countedArray (Shape.scalar 1)) [1, 2, 3] [1, 9]
      = [Mismatch.count, Mismatch.scalar] :=
  ⟨by decide,
   (checkEqual_shorter (Shape.scalar 1) [1, 2, 3] [1, 9] 0 [] []).1 (by decide),
   by decide⟩

/-! ## Further claims on the stream -/

/-- C25.  In every state reached by writes and non-underflowing reads: a write of a
non-empty span does not meet the reset condition (the cursors differ after the
advance) and leaves the stream with the span appended; a write of an empty span leaves
the stream as it was; no write empties a stream that holds unread bytes, while the
read of all unread bytes does. -/
theorem write_never_resets (s : VulkanStreamForTesting) (h : ReachableOk s) :
    (∀ b : List Byte, b ≠ [] →
      s.mReadCursor ≠ s.mWriteCursor + b.length ∧
      (write s b).stream
        = { mReadCursor := s.mReadCursor, mWriteCursor := s.mWriteCursor + b.length,
            mBuffer := s.mBuffer ++ b }) ∧
    (write s []).stream = s ∧
    (∀ b : List Byte, unread s ≠ [] →
      (write s b).stream ≠ fresh ∧ unread (write s b).stream ≠ []) ∧
    (unread s ≠ [] →
      (read s (unread s).length).expectFailed = false ∧
      (read s (unread s).length).stream = fresh) := by
  have hinv := Inv_of_reachableOk s h
  obtain ⟨⟨hlen, hemp⟩, hle⟩ := hinv
  have hulen : (unread s).length = s.mWriteCursor - s.mReadCursor := by
    rw [unread_eq_drop s hlen, List.length_drop, hlen]
  refine ⟨fun b hb => ?_, ?_, fun b hu => ?_, fun hu => ?_⟩
  · have hpos : 0 < b.length := List.length_pos.2 hb
    have hne : s.mReadCursor ≠ s.mWriteCursor + b.length := by omega
    exact ⟨hne, by rw [write_stream_eq s b hlen, if_neg hne]⟩
  · rw [write_stream_eq s [] hlen]
    simp only [List.length_nil, Nat.add_zero, List.append_nil]
    split
    · rename_i heq; exact (hemp heq).symm
    · rfl
  · have hun := unread_write s b ⟨⟨hlen, hemp⟩, hle⟩
    have hne : unread (write s b).stream ≠ [] := by
      rw [hun]
      intro hnil
      exact hu (List.append_eq_nil.1 hnil).1
    refine ⟨fun hf => hne ?_, hne⟩
    rw [hf, unread_fresh]
  · have hpos : 0 < (unread s).length := List.length_pos.2 hu
    refine ⟨?_, ?_⟩
    · simp only [read, Bool.not_eq_false', decide_eq_true_eq, hlen]
      omega
    · rw [read_stream_eq, if_pos (by omega)]

theorem write_never_resets_witness :
    ReachableOk (run fresh [Op.write [1, 2, 3], Op.read 1]) ∧
    ((run fresh [Op.write [1, 2, 3], Op.read 1]).mReadCursor
        ≠ (run fresh [Op.write [1, 2, 3], Op.read 1]).mWriteCursor
          + ([4] : List Byte).length ∧
     (write (run fresh [Op.write [1, 2, 3], Op.read 1]) [4]).stream
        = { mReadCursor := (run fresh [Op.write [1, 2, 3], Op.read 1]).mReadCursor,
            mWriteCursor := (run fresh [Op.write [1, 2, 3], Op.read 1]).mWriteCursor
              + ([4] : List Byte).length,
            mBuffer := (run fresh [Op.write [1, 2, 3], Op.read 1]).mBuffer ++ [4] }) ∧
    (write (run fresh [Op.write [1, 2, 3], Op.read 1]) []).stream
      = run fresh [Op.write [1, 2, 3], Op.read 1] :=
  ⟨⟨_, by decide, rfl⟩,
   (write_never_resets _ ⟨_, by decide, rfl⟩).1 [4] (by decide),
   (write_never_resets _ ⟨_, by decide, rfl⟩).2.1⟩

end goldfish_vk

namespace MicrophonePage

/-! ## The microphone page -/

theorem forward_some (p : MicrophonePage) (queue : List SkinEvent) (type code value : Int)
    (h : p.mEmulatorWindow = some queue) :
    (forwardGenericEventToEmulator p type code value).mEmulatorWindow
      = some (queue ++ [genericEvent type code value]) := by
  simp [forwardGenericEventToEmulator, h, genericEvent]

theorem forward_none (p : MicrophonePage) (type code value : Int)
    (h : p.mEmulatorWindow = none) :
    forwardGenericEventToEmulator p type code value = p := by
  simp [forwardGenericEventToEmulator, h]

/-- C27.  When an emulator window is set, `on_mic_inserted_toggled(checked)` queues
exactly three generic events, in this order: `(EV_SW, SW_HEADPHONE_INSERT, checked ? 1 :
0)`, `(EV_SW, SW_MICROPHONE_INSERT, 1 if checked and the has-microphone box is checked,
else 0)`, `(EV_SYN, 0, 0)`; the microphone value is never 1 while the headphone value
is 0; and when no emulator window is set, none is set afterwards and nothing is
queued. -/
theorem inserted_toggled_events (K : HwEvents) (p : MicrophonePage) (checked : Bool)
    (queue : List SkinEvent) (h : p.mEmulatorWindow = some queue) :
    (on_mic_inserted_toggled K p checked).mEmulatorWindow
      = some (queue ++
          [genericEvent K.EV_SW K.SW_HEADPHONE_INSERT (if checked then 1 else 0),
           genericEvent K.EV_SW K.SW_MICROPHONE_INSERT
             (if checked && p.mic_hasMic then 1 else 0),
           genericEvent K.EV_SYN 0 0]) ∧
    ¬ ((if checked && p.mic_hasMic then (1 : Int) else 0) = 1 ∧
        (if checked then (1 : Int) else 0) = 0) ∧
    ∀ p' : MicrophonePage, p'.mEmulatorWindow = none →
      (on_mic_inserted_toggled K p' checked).mEmulatorWindow = none := by
  refine ⟨?_, ?_, fun p' h' => ?_⟩
  · obtain ⟨ins, mic, e1, e2, e3, w⟩ := p
    simp only at h
    subst h
    cases checked <;> cases mic <;>
      simp [on_mic_inserted_toggled, forwardGenericEventToEmulator, genericEvent]
  · cases checked <;> cases p.mic_hasMic <;> simp
  · obtain ⟨ins, mic, e1, e2, e3, w⟩ := p'
    simp only at h'
    subst h'
    simp [on_mic_inserted_toggled, forwardGenericEventToEmulator]

theorem inserted_toggled_events_witness :
    samplePage.mEmulatorWindow = some [genericEvent 1 231 0] ∧
    (on_mic_inserted_toggled sampleHwEvents samplePage true).mEmulatorWindow
      = some ([genericEvent 1 231 0] ++
          [genericEvent sampleHwEvents.EV_SW sampleHwEvents.SW_HEADPHONE_INSERT
             (if true then 1 else 0),
           genericEvent sampleHwEvents.EV_SW sampleHwEvents.SW_MICROPHONE_INSERT
             (if true && samplePage.mic_hasMic then 1 else 0),
           genericEvent sampleHwEvents.EV_SYN 0 0]) :=
  ⟨rfl, (inserted_toggled_events sampleHwEvents samplePage true [genericEvent 1 231 0]
    rfl).1⟩

/-- C28.  When the headset-inserted box is checked and an emulator window is set,
`on_mic_hasMic_toggled(checked)` queues exactly the two events `(EV_SW,
SW_MICROPHONE_INSERT, checked ? 1 : 0)` and `(EV_SYN, 0, 0)`, in this order; when the
headset-inserted box is unchecked it changes nothing, so it queues no event. -/
theorem hasMic_toggled_events (K : HwEvents) (p : MicrophonePage) (checked : Bool)
    (queue : List SkinEvent) (hw : p.mEmulatorWindow = some queue)
    (hi : p.mic_inserted = true) :
    (on_mic_hasMic_toggled K p checked).mEmulatorWindow
      = some (queue ++
          [genericEvent K.EV_SW K.SW_MICROPHONE_INSERT (if checked then 1 else 0),
           genericEvent K.EV_SYN 0 0]) ∧
    ∀ p' : MicrophonePage, p'.mic_inserted = false →
      on_mic_hasMic_toggled K p' checked = p' := by
  refine ⟨?_, fun p' h' => by simp [on_mic_hasMic_toggled, h']⟩
  obtain ⟨ins, mic, e1, e2, e3, w⟩ := p
  simp only at hw hi
  subst hw hi
  cases checked <;>
    simp [on_mic_hasMic_toggled, forwardGenericEventToEmulator, genericEvent]

theorem hasMic_toggled_events_witness :
    samplePage.mEmulatorWindow = some [genericEvent 1 231 0] ∧
    samplePage.mic_inserted = true ∧
    (on_mic_hasMic_toggled sampleHwEvents samplePage false).mEmulatorWindow
      = some ([genericEvent 1 231 0] ++
          [genericEvent sampleHwEvents.EV_SW sampleHwEvents.SW_MICROPHONE_INSERT
             (if false then 1 else 0),
           genericEvent sampleHwEvents.EV_SYN 0 0]) :=
  ⟨rfl, rfl, (hasMic_toggled_events sampleHwEvents samplePage false
    [genericEvent 1 231 0] rfl rfl).1⟩

end MicrophonePage

namespace ToolWindow

/-! ## The tool window: shortcuts and commands -/

theorem keypadMask_testBit (i : Nat) :
    (0xFFFFFFFF ^^^ KeypadModifier).testBit i = decide (i < 32 ∧ i ≠ 29) := by
  have hval : (0xFFFFFFFF ^^^ KeypadModifier) = 3758096383 := by decide
  rw [hval]
  by_cases hi : i < 32
  · interval_cases i <;> decide
  · have hlt : 3758096383 < 2 ^ i :=
      Nat.lt_of_lt_of_le (by norm_num) (Nat.pow_le_pow_right (by norm_num) (Nat.le_of_not_lt hi))
    rw [Nat.testBit_lt_two_pow hlt]
    simp [hi]

/-- The bits of `modifiers & ~Qt::KeypadModifier`: bit 29 is clear, the other bits of
the 32-bit flags are those of `modifiers`. -/
theorem withoutKeypad_testBit (m i : Nat) :
    (withoutKeypad m).testBit i = (m.testBit i && decide (i < 32 ∧ i ≠ 29)) := by
  rw [withoutKeypad, Nat.testBit_land, keypadMask_testBit]

theorem withoutKeypad_or (m : Nat) : withoutKeypad (m ||| KeypadModifier) = withoutKeypad m := by
  apply Nat.eq_of_testBit_eq
  intro i
  rw [withoutKeypad_testBit, withoutKeypad_testBit, Nat.testBit_lor]
  by_cases h29 : i = 29
  · subst h29; simp
  · have hk : KeypadModifier.testBit i = false := by
      have : KeypadModifier = 2 ^ 29 := by decide
      rw [this, Nat.testBit_two_pow]
      simp
      omega
    rw [hk, Bool.or_false]

/-- C29.  For an event whose key sequence, `key()` plus the modifiers without the keypad
modifier, is bound to `cmd` in the shortcut store: when the event is a key press,
`handleQtKeyEvent` runs `handleUICommand(cmd, true)` and then `handleUICommand(cmd,
false)`, these two calls and no other; when the event is of any other type it leaves the
tool window as it was and makes no call; and the key sequence looked up has the keypad
bit clear and the other modifier bits unchanged, so an event with the keypad modifier
added is handled as the event without it. -/
theorem handleQtKeyEvent_calls (W : EmulatorWindow) (K : HwEvents)
    (store : ShortcutKeyStore) (event : QKeyEvent) (cmd : QtUICommand)
    (log : List Action)
    (hb : Bound store (event.key + withoutKeypad event.modifiers) cmd) :
    (event.type = QEventType.KeyPress →
      handleQtKeyEvent W K store event log
        = (true, handleUICommand W K (handleUICommand W K log cmd true) cmd false) ∧
      handleQtKeyEventWith recordCall store event []
        = (true, [(cmd, true), (cmd, false)])) ∧
    (event.type ≠ QEventType.KeyPress →
      handleQtKeyEvent W K store event log = (true, log) ∧
      handleQtKeyEventWith recordCall store event [] = (true, [])) ∧
    (withoutKeypad event.modifiers).testBit 29 = false ∧
    (∀ i, i < 32 → i ≠ 29 →
      (withoutKeypad event.modifiers).testBit i = event.modifiers.testBit i) ∧
    handleQtKeyEvent W K store
        { event with modifiers := event.modifiers ||| KeypadModifier } log
      = handleQtKeyEvent W K store event log := by
  refine ⟨fun hp => ?_, fun hn => ?_, ?_, fun i hi h29 => ?_, ?_⟩
  · simp only [handleQtKeyEvent, handleQtKeyEventWith, hb _ _ _, hp, decide_True, if_true,
      recordCall, List.nil_append, List.singleton_append, and_self]
  · simp only [handleQtKeyEvent, handleQtKeyEventWith, hb _ _ _, hn, decide_False,
      Bool.false_eq_true, if_false, and_self]
  · rw [withoutKeypad_testBit]; simp
  · rw [withoutKeypad_testBit]; simp [hi, h29]
  · simp only [handleQtKeyEvent, handleQtKeyEventWith, withoutKeypad_or]

theorem handleQtKeyEvent_calls_witness :
    Bound sampleStore (sampleEvent.key + withoutKeypad sampleEvent.modifiers)
      QtUICommand.VOLUME_UP ∧
    handleQtKeyEvent sampleWindow sampleHwEvents sampleStore sampleEvent []
      = (true, handleUICommand sampleWindow sampleHwEvents
          (handleUICommand sampleWindow sampleHwEvents [] QtUICommand.VOLUME_UP true)
          QtUICommand.VOLUME_UP false) ∧
    handleQtKeyEventWith recordCall sampleStore sampleEvent []
      = (true, [(QtUICommand.VOLUME_UP, true), (QtUICommand.VOLUME_UP, false)]) :=
  ⟨fun _ _ _ => rfl,
   ((handleQtKeyEvent_calls sampleWindow sampleHwEvents sampleStore sampleEvent
      QtUICommand.VOLUME_UP [] (fun _ _ _ => rfl)).1 rfl).1,
   ((handleQtKeyEvent_calls sampleWindow sampleHwEvents sampleStore sampleEvent
      QtUICommand.VOLUME_UP [] (fun _ _ _ => rfl)).1 rfl).2⟩

/-- The key event `forwardKeyToEmulator` queues. -/
theorem forwardKeyToEmulator_eq (log : List Action) (keycode : Nat) (down : Bool) :
    forwardKeyToEmulator log keycode down
      = log ++ [Action.queueEvent
          { type := if down then SkinEventType.kEventKeyDown else SkinEventType.kEventKeyUp,
            u := SkinEventData.key { keycode := keycode, mod := 0 } }] := rfl

/-- C30.  For each of `VOLUME_UP`, `VOLUME_DOWN`, `POWER`, `MENU`, `HOME`, `BACK`,
`OVERVIEW` and each `down`, `handleUICommand` makes exactly one call, `queueEvent` of a
key event of type `kEventKeyDown` if `down` and `kEventKeyUp` otherwise, with modifier 0
and keycode `KEY_VOLUMEUP`, `KEY_VOLUMEDOWN`, `KEY_POWER`, `KEY_SOFT1`, `KEY_HOME`,
`KEY_BACK`, `KEY_APPSWITCH` respectively; for every pane, screenshot, zoom, pan and rotate
command with `down == false` it makes no call at all, except that `ENTER_ZOOM` sets the
zoom button to the zoom mode of the emulator window. -/
theorem handleUICommand_effects (W : EmulatorWindow) (K : HwEvents) (log : List Action)
    (down : Bool) :
    (∀ p ∈ [(QtUICommand.VOLUME_UP, K.KEY_VOLUMEUP), (QtUICommand.VOLUME_DOWN, K.KEY_VOLUMEDOWN),
        (QtUICommand.POWER, K.KEY_POWER), (QtUICommand.MENU, K.KEY_SOFT1),
        (QtUICommand.HOME, K.KEY_HOME), (QtUICommand.BACK, K.KEY_BACK),
        (QtUICommand.OVERVIEW, K.KEY_APPSWITCH)],
      handleUICommand W K log p.1 down
        = log ++ [Action.queueEvent
            { type := if down then SkinEventType.kEventKeyDown
                      else SkinEventType.kEventKeyUp,
              u := SkinEventData.key { keycode := p.2, mod := 0 } }]) ∧
    (∀ cmd ∈ [QtUICommand.SHOW_PANE_LOCATION, QtUICommand.SHOW_PANE_CELLULAR,
        QtUICommand.SHOW_PANE_BATTERY, QtUICommand.SHOW_PANE_PHONE,
        QtUICommand.SHOW_PANE_VIRTSENSORS, QtUICommand.SHOW_PANE_DPAD,
        QtUICommand.SHOW_PANE_FINGER, QtUICommand.SHOW_PANE_SETTINGS,
        QtUICommand.SHOW_PANE_HELP, QtUICommand.TAKE_SCREENSHOT, QtUICommand.ZOOM_IN,
        QtUICommand.ZOOM_OUT, QtUICommand.PAN_UP, QtUICommand.PAN_DOWN,
        QtUICommand.PAN_LEFT, QtUICommand.PAN_RIGHT, QtUICommand.ROTATE_RIGHT,
        QtUICommand.ROTATE_LEFT],
      handleUICommand W K log cmd false = log) ∧
    handleUICommand W K log QtUICommand.ENTER_ZOOM false
      = log ++ [Action.zoomButtonSetChecked (W.isInZoomMode log)] := by
  refine ⟨fun p hp => ?_, fun cmd hc => ?_, ?_⟩
  · simp only [List.mem_cons, List.mem_singleton, List.not_mem_nil, or_false] at hp
    rcases hp with h | h | h | h | h | h | h <;> subst h <;> rfl
  · simp only [List.mem_cons, List.mem_singleton, List.not_mem_nil, or_false] at hc
    rcases hc with h | h | h | h | h | h | h | h | h | h | h | h | h | h | h | h | h | h <;>
      subst h <;> rfl
  · rfl

theorem handleUICommand_effects_witness :
    (QtUICommand.POWER, sampleHwEvents.KEY_POWER)
      ∈ [(QtUICommand.VOLUME_UP, sampleHwEvents.KEY_VOLUMEUP),
         (QtUICommand.VOLUME_DOWN, sampleHwEvents.KEY_VOLUMEDOWN),
         (QtUICommand.POWER, sampleHwEvents.KEY_POWER),
         (QtUICommand.MENU, sampleHwEvents.KEY_SOFT1),
         (QtUICommand.HOME, sampleHwEvents.KEY_HOME),
         (QtUICommand.BACK, sampleHwEvents.KEY_BACK),
         (QtUICommand.OVERVIEW, sampleHwEvents.KEY_APPSWITCH)] ∧
    handleUICommand sampleWindow sampleHwEvents [] QtUICommand.POWER true
      = [] ++ [Action.queueEvent
          { type := if true then SkinEventType.kEventKeyDown
                    else SkinEventType.kEventKeyUp,
            u := SkinEventData.key { keycode := sampleHwEvents.KEY_POWER, mod := 0 } }] :=
  ⟨by simp,
   (handleUICommand_effects sampleWindow sampleHwEvents [] true).1
     (QtUICommand.POWER, sampleHwEvents.KEY_POWER) (by simp)⟩

end ToolWindow
